import Mathlib

/-!
Shallow embedding of the `diydns` DNS codec and resolver (Rust sources
`src/lib.rs` and `src/main.rs`) together with proofs about the claims of
the natural-language specification.

Modelling conventions:
* Machine integers are `Nat`; every `as u8`/`as u16` cast of the source is
  an explicit `% 2^w`, and byte accessors reduce mod 256 to reflect the
  `u8` element type of the Rust array `[u8; 512]`.
* `Rust`'s `Result` together with the two effect kinds that escape it
  (panics from `unwrap()`/`unreachable!()`, and nontermination of the
  unguarded name-decompression loop) are modelled by the four-valued
  result type `Res`: `ok`, `err` (an `Err` value), `panicked` (a Rust
  panic), and `diverged` (fuel exhaustion of a loop that the source runs
  without any bound; `diverged` for every fuel value means the source
  loops forever).
* Rust `String`s are modelled as their UTF-8 byte sequences (`List Nat`).
  The source decodes label bytes with `String::from_utf8_lossy` followed
  by `str::to_lowercase`; the model applies per-byte ASCII lowercasing
  (`asciiLower`), which agrees with the source exactly on ASCII bytes.
  All validity predicates used in round-trip theorems restrict names to
  ASCII, where the two coincide.
* Reader methods of `BytePacketBuffer` mutate only `pos`, so they are
  modelled as functions of the byte store and a position, returning the
  value together with the new position; writer methods return the updated
  buffer.
-/

namespace DiyDns

/-- The error values produced by the codec (`std::io::Error` in the source,
distinguished here by their message): `bounds` is "Unexpected end of
buffer!", `labelTooLong` is "Label exceeds 63 characters of length". -/
inductive DnsErr where
  | bounds
  | labelTooLong
deriving DecidableEq, Repr

/-- Four-valued outcome of running a piece of the Rust code: a `Result`
value (`ok`/`err`), a Rust panic (`panicked`), or fuel exhaustion of an
unguarded loop (`diverged`). -/
inductive Res (α : Type) where
  | ok (a : α)
  | err (e : DnsErr)
  | panicked
  | diverged
deriving DecidableEq, Repr

namespace Res

/-- Sequencing that models Rust's `?` operator: `ok` continues, every
other outcome propagates. -/
def bind {α β : Type} (x : Res α) (f : α → Res β) : Res β :=
  match x with
  | .ok a => f a
  | .err e => .err e
  | .panicked => .panicked
  | .diverged => .diverged

instance : Monad Res where
  pure := Res.ok
  bind := Res.bind

@[simp] theorem bind_ok {α β : Type} (a : α) (f : α → Res β) :
    Res.bind (.ok a) f = f a := rfl

@[simp] theorem bind_err {α β : Type} (e : DnsErr) (f : α → Res β) :
    Res.bind (.err e) f = .err e := rfl

@[simp] theorem bind_panicked {α β : Type} (f : α → Res β) :
    Res.bind .panicked f = .panicked := rfl

@[simp] theorem bind_diverged {α β : Type} (f : α → Res β) :
    Res.bind .diverged f = .diverged := rfl

@[simp] theorem monad_bind_eq {α β : Type} (x : Res α) (f : α → Res β) :
    x >>= f = Res.bind x f := rfl

@[simp] theorem pure_eq {α : Type} (a : α) : (pure a : Res α) = .ok a := rfl

end Res

/-- `const MAX_BUFFER_SIZE: usize = 512;` -/
def MAX_BUFFER_SIZE : Nat := 512

/-- `BytePacketBuffer { buf: [u8; MAX_BUFFER_SIZE], pos: usize }`.
The array is a total function on `Nat`; accessors reduce values mod 256,
reflecting the `u8` element type. -/
structure BytePacketBuffer where
  buf : Nat → Nat
  pos : Nat

namespace BytePacketBuffer

/-- `BytePacketBuffer::new()`: zeroed array, position 0. -/
def new : BytePacketBuffer := ⟨fun _ => 0, 0⟩

/-- `fn is_in_range(&self, pos: usize) -> Result<()>` -/
def is_in_range (pos : Nat) : Res Unit :=
  if pos < MAX_BUFFER_SIZE then .ok () else .err .bounds

/-- `fn get(&self, pos: usize) -> Result<u8>` -/
def get (buf : Nat → Nat) (pos : Nat) : Res Nat := do
  let _ ← is_in_range pos
  pure (buf pos % 256)

/-- `fn get_range(&self, start: usize, len: usize) -> Result<&[u8]>`:
yields the bytes `buf[start..start+len]` after checking
`is_in_range(start + len)`. -/
def get_range (buf : Nat → Nat) (start len : Nat) : Res (List Nat) := do
  let _ ← is_in_range (start + len)
  pure ((List.range len).map fun i => buf (start + i) % 256)

/-- `fn read(&mut self) -> Result<u8>`: reads the byte at `pos` and
advances `pos` by one; returns (byte, new position). -/
def read (buf : Nat → Nat) (pos : Nat) : Res (Nat × Nat) := do
  let _ ← is_in_range pos
  pure (buf pos % 256, pos + 1)

/-- `fn read_u16(&mut self) -> Result<u16>`:
`((self.read()? as u16) << 8) | (self.read()? as u16)`. -/
def read_u16 (buf : Nat → Nat) (pos : Nat) : Res (Nat × Nat) := do
  let (hi, pos) ← read buf pos
  let (lo, pos) ← read buf pos
  pure ((hi <<< 8) ||| lo, pos)

/-- `fn read_u32(&mut self) -> Result<u32>`:
`((self.read_u16()? as u32) << 16) | (self.read_u16()? as u32)`. -/
def read_u32 (buf : Nat → Nat) (pos : Nat) : Res (Nat × Nat) := do
  let (hi, pos) ← read_u16 buf pos
  let (lo, pos) ← read_u16 buf pos
  pure ((hi <<< 16) ||| lo, pos)

/-- `fn write(&mut self, val: u8) -> Result<()>`: bounds-check `pos`,
store the byte, advance `pos`. The check precedes the store, exactly as
in the source, so a failed write changes nothing. -/
def write (b : BytePacketBuffer) (val : Nat) : Res BytePacketBuffer := do
  let _ ← is_in_range b.pos
  pure ⟨fun i => if i = b.pos then val % 256 else b.buf i, b.pos + 1⟩

/-- `fn write_u16(&mut self, val: u16)`: high byte then low byte, each
truncated to `u8` (`as u8` casts). -/
def write_u16 (b : BytePacketBuffer) (val : Nat) : Res BytePacketBuffer := do
  let b ← b.write ((val >>> 8) % 256)
  b.write (val &&& 0xFF)

/-- `fn write_u32(&mut self, val: u32)`: two big-endian `u16` halves. -/
def write_u32 (b : BytePacketBuffer) (val : Nat) : Res BytePacketBuffer := do
  let b ← b.write_u16 ((val >>> 16) &&& 0xFFFF)
  b.write_u16 (val &&& 0xFFFF)

/-- `fn set(&mut self, pos: usize, val: u8)`: in-place store at an
arbitrary position, leaving `pos` untouched. -/
def set (b : BytePacketBuffer) (pos val : Nat) : Res BytePacketBuffer := do
  let _ ← is_in_range pos
  pure ⟨fun i => if i = pos then val % 256 else b.buf i, b.pos⟩

/-- `fn set_u16(&mut self, pos: usize, val: u16)` -/
def set_u16 (b : BytePacketBuffer) (pos val : Nat) : Res BytePacketBuffer := do
  let b ← b.set pos ((val >>> 8) % 256)
  b.set (pos + 1) (val &&& 0xFF)

end BytePacketBuffer

/-- ASCII lowercasing of a single byte. On ASCII input this is exactly
what `String::from_utf8_lossy(..).to_lowercase()` does per byte; the
model does not capture the source's Unicode handling of bytes ≥ 128. -/
def asciiLower (b : Nat) : Nat :=
  if 65 ≤ b ∧ b ≤ 90 then b + 32 else b

namespace BytePacketBuffer

/-- The loop body of `fn read_qname(&mut self) -> Result<String>`.
State mirrors the source's locals: `qnamePos` is `qname_pos`, `jumped`
and `first` the two flags, `out` the accumulated output bytes, `pos` the
buffer's externally visible `self.pos`.  One fuel unit is spent per
iteration; the source loop has no bound of its own. -/
def read_qname_go (buf : Nat → Nat) :
    Nat → Nat → Bool → Bool → List Nat → Nat → Res (List Nat × Nat)
  | 0, _, _, _, _, _ => .diverged
  | fuel + 1, qnamePos, jumped, first, out, pos =>
    match get buf qnamePos with
    | .ok len =>
      if len &&& 0xC0 == 0xC0 then
        -- compression pointer: maybe commit `pos`, then jump the scan
        let pos' := if jumped then pos else qnamePos + 2
        match get buf (qnamePos + 1) with
        | .ok secondByte =>
          read_qname_go buf fuel (((len ^^^ 0xC0) <<< 8) ||| secondByte)
            true first out pos'
        | .err e => .err e
        | .panicked => .panicked
        | .diverged => .diverged
      else
        let qnamePos' := qnamePos + 1
        if len == 0 then
          .ok (out, if jumped then pos else qnamePos')
        else
          match get_range buf qnamePos' len with
          | .ok strBuffer =>
            let out' := (if first then out else out ++ [46]) ++
              strBuffer.map asciiLower
            read_qname_go buf fuel (qnamePos' + len) jumped false out' pos
          | .err e => .err e
          | .panicked => .panicked
          | .diverged => .diverged
    | .err e => .err e
    | .panicked => .panicked
    | .diverged => .diverged

/-- `fn read_qname(&mut self) -> Result<String>`: starts the loop at the
current position with `jumped = false`, `first = true`, empty output.
Returns the name's bytes and the final externally visible position. -/
def read_qname (buf : Nat → Nat) (pos : Nat) (fuel : Nat) :
    Res (List Nat × Nat) :=
  read_qname_go buf fuel pos false true [] pos

/-- The body of the `for b in label.as_bytes()` loop in `write_qname`:
writes the bytes of one label in order. -/
def write_bytes (bytes : List Nat) (b : BytePacketBuffer) :
    Res BytePacketBuffer :=
  match bytes with
  | [] => .ok b
  | v :: rest => do
    let b ← b.write v
    write_bytes rest b

/-- The `for label in qname.split('.')` loop of `fn write_qname`, over
the list of labels, followed by the terminating `self.write(0)`.
The length check is the source's literal `if len > 0x34` (0x34 = 52),
with the error whose message reads "Label exceeds 63 characters of
length". -/
def write_qname_go (labels : List (List Nat)) (b : BytePacketBuffer) :
    Res BytePacketBuffer :=
  match labels with
  | [] => b.write 0
  | label :: rest =>
    if label.length > 0x34 then .err .labelTooLong
    else do
      let b ← b.write (label.length % 256)
      let b ← write_bytes label b
      write_qname_go rest b

/-- `fn write_qname(&mut self, qname: &str)`: split the name on `'.'`
(byte 46) and write each label length-prefixed, then a zero byte. -/
def write_qname (b : BytePacketBuffer) (qname : List Nat) :
    Res BytePacketBuffer :=
  write_qname_go (qname.splitOn 46) b

end BytePacketBuffer

/-- `pub enum ResultCode` (fieldless, so `as u8` yields the declaration
index: Success = 0 … Refused = 5). -/
inductive ResultCode where
  | Success
  | FormError
  | ServerFail
  | NonexistantDomain
  | NotImplemented
  | Refused
deriving DecidableEq, Repr

/-- The discriminant used by the source's `header.rescode as u8` cast. -/
def ResultCode.toNum : ResultCode → Nat
  | .Success => 0
  | .FormError => 1
  | .ServerFail => 2
  | .NonexistantDomain => 3
  | .NotImplemented => 4
  | .Refused => 5

/-- `ResultCode::from_num`. The catch-all arm of the source is
`unreachable!()`, i.e. a Rust panic, modelled by `panicked`. -/
def ResultCode.from_num (num : Nat) : Res ResultCode :=
  match num with
  | 1 => .ok .FormError
  | 2 => .ok .ServerFail
  | 3 => .ok .NonexistantDomain
  | 4 => .ok .NotImplemented
  | 5 => .ok .Refused
  | 0 => .ok .Success
  | _ => .panicked

/-- `impl Default for ResultCode`: `ResultCode::Success`. -/
def ResultCode.default : ResultCode := .Success

/-- `pub struct DnsHeader` (field-for-field). -/
structure DnsHeader where
  id : Nat
  recursion_desired : Bool
  truncated_message : Bool
  authoritative_answer : Bool
  opcode : Nat
  response : Bool
  rescode : ResultCode
  checking_disabled : Bool
  authed_data : Bool
  z : Bool
  recursion_available : Bool
  questions : Nat
  answers : Nat
  authoritative_entries : Nat
  resource_entries : Nat
deriving DecidableEq, Repr

/-- `#[derive(Default)]` for `DnsHeader`: zeros and `false` everywhere,
`ResultCode::Success` for the rescode. -/
def DnsHeader.default : DnsHeader :=
  ⟨0, false, false, false, 0, false, .Success, false, false, false, false,
    0, 0, 0, 0⟩

namespace BytePacketBuffer

/-- `pub fn read_header(&mut self) -> Result<DnsHeader>`: id, two flag
bytes (bit layout as in the source), then the four section counts.  Note
that `ResultCode::from_num` runs before the counts are read, so its
panic (on a rescode nibble outside 0..=5) pre-empts them. -/
def read_header (buf : Nat → Nat) (pos : Nat) : Res (DnsHeader × Nat) := do
  let (id, pos) ← read_u16 buf pos
  let (flags, pos) ← read_u16 buf pos
  let a := (flags >>> 8) % 256
  let b := flags &&& 0xFF
  let recursion_desired := decide (0 < a &&& (1 <<< 0))
  let truncated_message := decide (0 < a &&& (1 <<< 1))
  let authoritative_answer := decide (0 < a &&& (1 <<< 2))
  let opcode := (a >>> 3) &&& 0x0F
  let response := decide (0 < a &&& (1 <<< 7))
  let rescode ← ResultCode.from_num (b &&& 0x0F)
  let checking_disabled := decide (0 < b &&& (1 <<< 4))
  let authed_data := decide (0 < b &&& (1 <<< 5))
  let z := decide (0 < b &&& (1 <<< 6))
  let recursion_available := decide (0 < b &&& (1 <<< 7))
  let (questions, pos) ← read_u16 buf pos
  let (answers, pos) ← read_u16 buf pos
  let (authoritative_entries, pos) ← read_u16 buf pos
  let (resource_entries, pos) ← read_u16 buf pos
  pure (⟨id, recursion_desired, truncated_message, authoritative_answer,
    opcode, response, rescode, checking_disabled, authed_data, z,
    recursion_available, questions, answers, authoritative_entries,
    resource_entries⟩, pos)

/-- `pub fn write_header(&mut self, header: DnsHeader)`.  The `u8` shifts
of the source truncate silently, hence the `% 256` on the opcode term. -/
def write_header (b : BytePacketBuffer) (header : DnsHeader) :
    Res BytePacketBuffer := do
  let b ← b.write_u16 header.id
  let b ← b.write (header.recursion_desired.toNat |||
    (header.truncated_message.toNat <<< 1) |||
    (header.authoritative_answer.toNat <<< 2) |||
    ((header.opcode <<< 3) % 256) |||
    (header.response.toNat <<< 7))
  let b ← b.write (header.rescode.toNum |||
    (header.checking_disabled.toNat <<< 4) |||
    (header.authed_data.toNat <<< 5) |||
    (header.z.toNat <<< 6) |||
    (header.recursion_available.toNat <<< 7))
  let b ← b.write_u16 header.questions
  let b ← b.write_u16 header.answers
  let b ← b.write_u16 header.authoritative_entries
  b.write_u16 header.resource_entries

end BytePacketBuffer

/-- `pub enum QueryType` with the open `Unknown(u16)` arm. -/
inductive QueryType where
  | Unknown (x : Nat)
  | A
  | NS
  | CNAME
  | MX
  | AAAA
deriving DecidableEq, Repr

/-- `QueryType::to_num`. -/
def QueryType.to_num : QueryType → Nat
  | .Unknown x => x
  | .A => 1
  | .NS => 2
  | .CNAME => 5
  | .MX => 15
  | .AAAA => 28

/-- `QueryType::from_num`. -/
def QueryType.from_num (num : Nat) : QueryType :=
  match num with
  | 1 => .A
  | 2 => .NS
  | 5 => .CNAME
  | 15 => .MX
  | 28 => .AAAA
  | _ => .Unknown num

/-- `pub struct DnsQuestion { name: String, qtype: QueryType }`. -/
structure DnsQuestion where
  name : List Nat
  qtype : QueryType
deriving DecidableEq, Repr

namespace BytePacketBuffer

/-- `pub fn read_question(&mut self) -> Result<DnsQuestion>`: name,
query type, then the class field, which is read and discarded. -/
def read_question (buf : Nat → Nat) (pos : Nat) (fuel : Nat) :
    Res (DnsQuestion × Nat) := do
  let (name, pos) ← read_qname buf pos fuel
  let (qtypeNum, pos) ← read_u16 buf pos
  let qtype := QueryType.from_num qtypeNum
  let (_, pos) ← read_u16 buf pos
  pure (⟨name, qtype⟩, pos)

/-- `pub fn write_question(&mut self, question: DnsQuestion)`: name,
`to_num` of the query type, then the literal class value 1. -/
def write_question (b : BytePacketBuffer) (question : DnsQuestion) :
    Res BytePacketBuffer := do
  let b ← b.write_qname question.name
  let b ← b.write_u16 question.qtype.to_num
  b.write_u16 1

end BytePacketBuffer

/-- `pub enum DnsRecord`.  An IPv4 address is kept as the `u32` the
source feeds to `Ipv4Addr::from`; an IPv6 address as the list of eight
16-bit groups fed to `Ipv6Addr::new`. -/
inductive DnsRecord where
  | Unknown (domain : List Nat) (qtype : Nat) (data_len : Nat) (ttl : Nat)
  | A (domain : List Nat) (addr : Nat) (ttl : Nat)
  | NS (domain : List Nat) (host : List Nat) (ttl : Nat)
  | CNAME (domain : List Nat) (host : List Nat) (ttl : Nat)
  | MX (domain : List Nat) (priority : Nat) (host : List Nat) (ttl : Nat)
  | AAAA (domain : List Nat) (addr : List Nat) (ttl : Nat)
deriving DecidableEq, Repr

namespace BytePacketBuffer

/-- `pub fn read_record(&mut self) -> Result<DnsRecord>`.  For the
`Unknown` arm the source runs `self.pos += data_len` with no bounds
check. -/
def read_record (buf : Nat → Nat) (pos : Nat) (fuel : Nat) :
    Res (DnsRecord × Nat) := do
  let (domain, pos) ← read_qname buf pos fuel
  let (qtypeNum, pos) ← read_u16 buf pos
  let qtype := QueryType.from_num qtypeNum
  let (_, pos) ← read_u16 buf pos
  let (ttl, pos) ← read_u32 buf pos
  let (data_len, pos) ← read_u16 buf pos
  match qtype with
  | .A => do
    let (addr, pos) ← read_u32 buf pos
    pure (.A domain addr ttl, pos)
  | .AAAA => do
    let (s0, pos) ← read_u16 buf pos
    let (s1, pos) ← read_u16 buf pos
    let (s2, pos) ← read_u16 buf pos
    let (s3, pos) ← read_u16 buf pos
    let (s4, pos) ← read_u16 buf pos
    let (s5, pos) ← read_u16 buf pos
    let (s6, pos) ← read_u16 buf pos
    let (s7, pos) ← read_u16 buf pos
    pure (.AAAA domain [s0, s1, s2, s3, s4, s5, s6, s7] ttl, pos)
  | .NS => do
    let (host, pos) ← read_qname buf pos fuel
    pure (.NS domain host ttl, pos)
  | .CNAME => do
    let (host, pos) ← read_qname buf pos fuel
    pure (.CNAME domain host ttl, pos)
  | .MX => do
    let (priority, pos) ← read_u16 buf pos
    let (host, pos) ← read_qname buf pos fuel
    pure (.MX domain priority host ttl, pos)
  | .Unknown x =>
    pure (.Unknown domain x data_len ttl, pos + data_len)

/-- The `for octet in &addr.segments()` loop of the AAAA arm of
`write_record`: one `write_u16` per 16-bit group. -/
def write_segments (segments : List Nat) (b : BytePacketBuffer) :
    Res BytePacketBuffer :=
  match segments with
  | [] => .ok b
  | s :: rest => do
    let b ← b.write_u16 s
    write_segments rest b

/-- `pub fn write_record(&mut self, record: DnsRecord) -> Result<usize>`.
Returns the number of bytes written, as the source does.  The NS, CNAME
and MX arms write a placeholder length, the payload, then patch the
length via `set_u16` (with the source's `size as u16` cast).  The
`Unknown` arm only logs and writes nothing. -/
def write_record (b : BytePacketBuffer) (record : DnsRecord) :
    Res (Nat × BytePacketBuffer) := do
  let start_pos := b.pos
  match record with
  | .A domain addr ttl => do
    let b ← b.write_qname domain
    let b ← b.write_u16 QueryType.A.to_num
    let b ← b.write_u16 1
    let b ← b.write_u32 ttl
    let b ← b.write_u16 4
    let b ← b.write ((addr >>> 24) % 256)
    let b ← b.write ((addr >>> 16) % 256)
    let b ← b.write ((addr >>> 8) % 256)
    let b ← b.write (addr % 256)
    pure (b.pos - start_pos, b)
  | .NS domain host ttl => do
    let b ← b.write_qname domain
    let b ← b.write_u16 QueryType.NS.to_num
    let b ← b.write_u16 1
    let b ← b.write_u32 ttl
    let pos := b.pos
    let b ← b.write_u16 0
    let b ← b.write_qname host
    let size := b.pos - (pos + 2)
    let b ← b.set_u16 pos (size % 65536)
    pure (b.pos - start_pos, b)
  | .CNAME domain host ttl => do
    let b ← b.write_qname domain
    let b ← b.write_u16 QueryType.CNAME.to_num
    let b ← b.write_u16 1
    let b ← b.write_u32 ttl
    let pos := b.pos
    let b ← b.write_u16 0
    let b ← b.write_qname host
    let size := b.pos - (pos + 2)
    let b ← b.set_u16 pos (size % 65536)
    pure (b.pos - start_pos, b)
  | .MX domain priority host ttl => do
    let b ← b.write_qname domain
    let b ← b.write_u16 QueryType.MX.to_num
    let b ← b.write_u16 1
    let b ← b.write_u32 ttl
    let pos := b.pos
    let b ← b.write_u16 0
    let b ← b.write_u16 priority
    let b ← b.write_qname host
    let size := b.pos - (pos + 2)
    let b ← b.set_u16 pos (size % 65536)
    pure (b.pos - start_pos, b)
  | .AAAA domain addr ttl => do
    let b ← b.write_qname domain
    let b ← b.write_u16 QueryType.AAAA.to_num
    let b ← b.write_u16 1
    let b ← b.write_u32 ttl
    let b ← b.write_u16 16
    let b ← write_segments addr b
    pure (b.pos - start_pos, b)
  | .Unknown _ _ _ _ =>
    -- `println!("Skipping record: {:#?}", record)`, nothing written
    pure (b.pos - start_pos, b)

end BytePacketBuffer

/-- `pub struct DnsPacket`. -/
structure DnsPacket where
  header : DnsHeader
  questions : List DnsQuestion
  answers : List DnsRecord
  authorities : List DnsRecord
  resources : List DnsRecord
deriving DecidableEq, Repr

/-- `#[derive(Default)]` for `DnsPacket`. -/
def DnsPacket.default : DnsPacket :=
  ⟨DnsHeader.default, [], [], [], []⟩

namespace BytePacketBuffer

/-- Models `iter::repeat_with(|| f().unwrap()).take(n).collect()` as used
by `read_packet`: run the element reader `n` times in sequence; an `Err`
from the reader hits `.unwrap()` and panics. -/
def read_many_unwrap {α : Type} (f : Nat → Res (α × Nat)) :
    Nat → Nat → Res (List α × Nat)
  | 0, pos => .ok ([], pos)
  | n + 1, pos =>
    match f pos with
    | .ok (a, pos') =>
      match read_many_unwrap f n pos' with
      | .ok (rest, pos'') => .ok (a :: rest, pos'')
      | .err e => .err e
      | .panicked => .panicked
      | .diverged => .diverged
    | .err _ => .panicked
    | .panicked => .panicked
    | .diverged => .diverged

/-- `pub fn read_packet(&mut self) -> Result<DnsPacket>`: the header via
`?`, then the four sections, each element read through `.unwrap()`. -/
def read_packet (buf : Nat → Nat) (pos : Nat) (fuel : Nat) :
    Res (DnsPacket × Nat) := do
  let (header, pos) ← read_header buf pos
  let (questions, pos) ←
    read_many_unwrap (fun p => read_question buf p fuel) header.questions pos
  let (answers, pos) ←
    read_many_unwrap (fun p => read_record buf p fuel) header.answers pos
  let (authorities, pos) ←
    read_many_unwrap (fun p => read_record buf p fuel)
      header.authoritative_entries pos
  let (resources, pos) ←
    read_many_unwrap (fun p => read_record buf p fuel)
      header.resource_entries pos
  pure (⟨header, questions, answers, authorities, resources⟩, pos)

/-- The `for question in packet.questions` loop of `write_packet`. -/
def write_questions (qs : List DnsQuestion) (b : BytePacketBuffer) :
    Res BytePacketBuffer :=
  match qs with
  | [] => .ok b
  | q :: rest => do
    let b ← b.write_question q
    write_questions rest b

/-- The record-section loops of `write_packet` (the returned size of
`write_record` is discarded by the `?;` statement). -/
def write_records (rs : List DnsRecord) (b : BytePacketBuffer) :
    Res BytePacketBuffer :=
  match rs with
  | [] => .ok b
  | r :: rest => do
    let (_, b) ← b.write_record r
    write_records rest b

/-- `pub fn write_packet(&mut self, packet: DnsPacket)`: header, then
questions, answers, authorities, resources in order. -/
def write_packet (b : BytePacketBuffer) (packet : DnsPacket) :
    Res BytePacketBuffer := do
  let b ← b.write_header packet.header
  let b ← write_questions packet.questions b
  let b ← write_records packet.answers b
  let b ← write_records packet.authorities b
  write_records packet.resources b

end BytePacketBuffer

/-! ### Resolver and server loop (`src/main.rs`)

`lookup` performs socket I/O and decodes the reply with `unwrap()`s.  The
network is abstracted as an oracle `Nat → DnsPacket` giving the response
to the i-th query issued; resolver functions thread the query index so
that theorems can count how many queries were performed. -/

/-- Modelled from the spec: `DnsPacket::get_resolved_ns` is called by
`recursive_lookup` but its definition is not part of the given sources.
Per §4.4 step 4, it scans the additional section for an A record whose
owner name is an NS target listed in the authority section for a suffix
of the queried name, and yields that record's IP. -/
def DnsPacket.get_resolved_ns (p : DnsPacket) (qname : List Nat) :
    Option Nat :=
  p.authorities.findSome? fun r =>
    match r with
    | .NS domain host _ =>
      if domain.isSuffixOf qname then
        p.resources.findSome? fun g =>
          match g with
          | .A gdomain addr _ => if gdomain = host then some addr else none
          | _ => none
      else none
    | _ => none

/-- Modelled from the spec: `DnsPacket::get_unresolved_ns` is called by
`recursive_lookup` but its definition is not part of the given sources.
Per §4.4 step 5, it yields the target host name of an NS record in the
authority section for a suffix of the queried name. -/
def DnsPacket.get_unresolved_ns (p : DnsPacket) (qname : List Nat) :
    Option (List Nat) :=
  p.authorities.findSome? fun r =>
    match r with
    | .NS domain host _ =>
      if domain.isSuffixOf qname then some host else none
    | _ => none

/-- Modelled from the spec: `DnsPacket::get_random_a` is called by
`recursive_lookup` but its definition is not part of the given sources.
Per §4.4 step 5 and §9, it picks an A record's address from the answer
section — despite the name, not randomly but a fixed element. -/
def DnsPacket.get_random_a (p : DnsPacket) : Option Nat :=
  p.answers.findSome? fun r =>
    match r with
    | .A _ addr _ => some addr
    | _ => none

/-- The IPv4 address `"198.41.0.4"` (*a.root-servers.net*) the resolver
starts from, as a 32-bit value. -/
def rootServerIp : Nat := 198 * 2 ^ 24 + 41 * 2 ^ 16 + 0 * 2 ^ 8 + 4

/-- `fn recursive_lookup(qname: &str, qtype: QueryType) -> Result<DnsPacket>`.
The `loop` body and the nested self-invocation are both modelled here:
`ns` is the mutable nameserver variable (initially `rootServerIp`),
`idx` the index of the next query to issue against `oracle`, and one
fuel unit is spent per loop iteration or nested call — the source has no
iteration cap, so exhausting every fuel value means it loops forever.
`lookup` itself decodes with `unwrap()` and is abstracted by the total
oracle. -/
def recursive_lookup (oracle : Nat → DnsPacket) :
    Nat → Nat → List Nat → QueryType → Nat → Res (DnsPacket × Nat)
  | 0, _, _, _, _ => .diverged
  | fuel + 1, idx, qname, qtype, _ns =>
    let response := oracle idx
    -- "If there are entries in the answer section, and no errors, we are done!"
    if response.answers ≠ [] ∧ response.header.rescode = .Success then
      .ok (response, idx + 1)
    -- NXDOMAIN: return as-is
    else if response.header.rescode = .NonexistantDomain then
      .ok (response, idx + 1)
    else
      match response.get_resolved_ns qname with
      | some new_ns =>
        -- switch nameserver and retry the loop
        recursive_lookup oracle fuel (idx + 1) qname qtype new_ns
      | none =>
        match response.get_unresolved_ns qname with
        | none => .ok (response, idx + 1)
        | some new_ns_name =>
          -- nested, independent invocation starting again at the root
          match recursive_lookup oracle fuel (idx + 1) new_ns_name .A
              rootServerIp with
          | .ok (recursive_response, idx') =>
            match recursive_response.get_random_a with
            | some new_ns =>
              recursive_lookup oracle fuel idx' qname qtype new_ns
            | none => .ok (response, idx')
          | .err e => .err e
          | .panicked => .panicked
          | .diverged => .diverged

/-- The response packet built at the top of each `serve` iteration
(`main.rs` lines 124–128): default packet with the request's id mirrored
and the `recursion_desired`/`recursion_available`/`response` flags set. -/
def serve_base_packet (request : DnsPacket) : DnsPacket :=
  { DnsPacket.default with
    header := { DnsHeader.default with
      id := request.header.id
      recursion_desired := true
      recursion_available := true
      response := true } }

/-- The packet as it stands after the zero-question branch of `serve`
(`main.rs` lines 130–131): the base packet with
`packet.header.rescode = ResultCode::FormError`. -/
def serve_zero_question_packet (request : DnsPacket) : DnsPacket :=
  let p := serve_base_packet request
  { p with header := { p.header with rescode := .FormError } }

/-- One iteration of the `loop` of `fn serve()`, from a received datagram
`reqBuf` to the bytes sent back (`ok (some data)`), or `ok none` when the
iteration `continue`s without sending.  Socket receive/send are the
abstracted boundary; `oracle`/`idx` abstract the resolver's network as
in `recursive_lookup`.  Faithful to the source's control flow: the
zero-question branch sets `FormError` on the packet but the
encode-and-send block is inside the `else` branch, so that packet is
dropped and nothing is sent. -/
def serve_step (oracle : Nat → DnsPacket) (fuel : Nat) (idx : Nat)
    (reqBuf : Nat → Nat) : Res (Option (List Nat)) :=
  match BytePacketBuffer.read_packet reqBuf 0 fuel with
  | .err _ => .ok none        -- "Failed to parse UDP query packet", continue
  | .panicked => .panicked
  | .diverged => .diverged
  | .ok (request, _) =>
    match request.questions with
    | [] =>
      -- `packet.header.rescode = ResultCode::FormError;` — but the send
      -- block below is in the `else` branch: nothing is sent
      .ok none
    | question :: _ =>
      match recursive_lookup oracle fuel idx question.name question.qtype
          rootServerIp with
      | .panicked => .panicked
      | .diverged => .diverged
      | rl =>
        let packet :=
          match rl with
          | .ok (result, _) =>
            let base := serve_base_packet request
            { base with
              header := { base.header with
                questions := 1
                rescode := result.header.rescode
                answers := result.header.answers
                authoritative_entries := result.header.authoritative_entries
                resource_entries := result.header.resource_entries }
              questions := [question]
              answers := result.answers
              authorities := result.authorities
              resources := result.resources }
          | _ =>
            let base := serve_base_packet request
            { base with
              header := { base.header with rescode := .ServerFail } }
        match BytePacketBuffer.write_packet BytePacketBuffer.new packet with
        | .err _ => .ok none  -- "Failed to encode UDP response packet"
        | .panicked => .panicked
        | .diverged => .diverged
        | .ok res_buffer =>
          match BytePacketBuffer.get_range res_buffer.buf 0 res_buffer.pos with
          | .err _ => .ok none  -- "Failed to retrieve response buffer"
          | .panicked => .panicked
          | .diverged => .diverged
          | .ok data => .ok (some data)

/-! ### Validity predicates

The round-trip claim quantifies over "valid" in-memory messages.  The
conditions below are the ones under which the source's encoder does not
reject or corrupt a message: labels are nonempty (a name with an empty
label encodes a stray zero length byte, which the decoder reads as a
name terminator), at most 0x34 = 52 bytes long (the encoder's actual
check, see the C5 analysis), and consist of ASCII bytes unchanged by
lowercasing (the decoder lowercases); every numeric field fits its wire
width; section counts agree with section lengths; and no record is of
the `Unknown` kind, which the encoder does not write. -/

/-- Validity of one name: conditions on every label of its `'.'`-split. -/
def validName (n : List Nat) : Prop :=
  ∀ l ∈ n.splitOn 46,
    l ≠ [] ∧ l.length ≤ 0x34 ∧ ∀ a ∈ l, a < 128 ∧ ¬(65 ≤ a ∧ a ≤ 90)

instance : DecidablePred validName := fun n =>
  inferInstanceAs (Decidable (∀ l ∈ n.splitOn 46, _ ∧ _ ∧ ∀ a ∈ l, _ ∧ _))

/-- Fields of a header fit their declared wire widths. -/
def DnsHeader.valid (h : DnsHeader) : Prop :=
  h.id < 65536 ∧ h.opcode < 16 ∧ h.questions < 65536 ∧ h.answers < 65536 ∧
    h.authoritative_entries < 65536 ∧ h.resource_entries < 65536

instance (h : DnsHeader) : Decidable h.valid :=
  inferInstanceAs (Decidable (_ ∧ _ ∧ _ ∧ _ ∧ _ ∧ _))

/-- A valid question: valid name, and a query type that survives the
`to_num`/`from_num` round trip (every concrete `A`/`NS`/`CNAME`/`MX`/
`AAAA` does; an `Unknown x` does exactly when `x` is not one of the five
known codes) and fits 16 bits. -/
def DnsQuestion.valid (q : DnsQuestion) : Prop :=
  validName q.name ∧ QueryType.from_num q.qtype.to_num = q.qtype ∧
    q.qtype.to_num < 65536

instance (q : DnsQuestion) : Decidable q.valid :=
  inferInstanceAs (Decidable (_ ∧ _ ∧ _))

/-- A valid record: valid names, fields in range, and not `Unknown`
(which `write_record` skips instead of encoding). -/
def DnsRecord.valid : DnsRecord → Prop
  | .Unknown _ _ _ _ => False
  | .A domain addr ttl => validName domain ∧ addr < 2 ^ 32 ∧ ttl < 2 ^ 32
  | .NS domain host ttl => validName domain ∧ validName host ∧ ttl < 2 ^ 32
  | .CNAME domain host ttl =>
    validName domain ∧ validName host ∧ ttl < 2 ^ 32
  | .MX domain priority host ttl =>
    validName domain ∧ priority < 65536 ∧ validName host ∧ ttl < 2 ^ 32
  | .AAAA domain addr ttl =>
    validName domain ∧ addr.length = 8 ∧ (∀ s ∈ addr, s < 65536) ∧
      ttl < 2 ^ 32

instance : DecidablePred DnsRecord.valid := fun r =>
  match r with
  | .Unknown _ _ _ _ => isFalse id
  | .A _ _ _ => inferInstanceAs (Decidable (_ ∧ _ ∧ _))
  | .NS _ _ _ => inferInstanceAs (Decidable (_ ∧ _ ∧ _))
  | .CNAME _ _ _ => inferInstanceAs (Decidable (_ ∧ _ ∧ _))
  | .MX _ _ _ _ => inferInstanceAs (Decidable (_ ∧ _ ∧ _ ∧ _))
  | .AAAA _ _ _ => inferInstanceAs (Decidable (_ ∧ _ ∧ _ ∧ _))

/-- A valid packet: valid header fields, the four header counts equal to
the lengths of the corresponding sections, every question and record
valid, no `Unknown`-kind record anywhere. -/
def DnsPacket.valid (p : DnsPacket) : Prop :=
  p.header.valid ∧
  p.header.questions = p.questions.length ∧
  p.header.answers = p.answers.length ∧
  p.header.authoritative_entries = p.authorities.length ∧
  p.header.resource_entries = p.resources.length ∧
  (∀ q ∈ p.questions, q.valid) ∧
  (∀ r ∈ p.answers, r.valid) ∧
  (∀ r ∈ p.authorities, r.valid) ∧
  (∀ r ∈ p.resources, r.valid)

instance (p : DnsPacket) : Decidable p.valid :=
  inferInstanceAs (Decidable (_ ∧ _ ∧ _ ∧ _ ∧ _ ∧ _ ∧ _ ∧ _ ∧ _))

/-- Joining labels with `'.'` the way the `read_qname` loop does: the
`first` flag says whether a separator is still owed before the next
label. -/
def dotJoin (first : Bool) (ls : List (List Nat)) : List Nat :=
  match ls with
  | [] => []
  | l :: rest => (if first then l else 46 :: l) ++ dotJoin false rest

/-! ### Concrete inputs used by witnesses and counterexamples -/

/-- A single 53-byte label (53 `'a'`s): within the documented 63-byte
label limit, yet rejected by the encoder's `len > 0x34` check. -/
def name53 : List Nat := List.replicate 53 97

/-- A datagram whose header says QDCOUNT = 1 and whose question starts
with the pointer bytes `0xC2 0x00`, i.e. a jump to offset 0x200 = 512:
decoding the question fails with a bounds error. -/
def c3buf : Nat → Nat := fun i => if i = 5 then 1 else if i = 12 then 0xC2 else 0

/-- A name whose encoding is a compression pointer to its own offset:
`0xC0 0x00` at offset 0 points back to offset 0. -/
def cycbuf : Nat → Nat := fun i => if i = 0 then 0xC0 else 0

/-- A buffer with a 63-byte label starting at offset 448, so that the
label's bytes occupy offsets 449–511 and end exactly at the last byte of
the buffer. -/
def c10buf : Nat → Nat := fun i => if i = 448 then 63 else 97

/-- A 12-byte header whose low flag byte (offset 3) carries the result
code nibble 6, outside the represented set {0,…,5}. -/
def c4buf : Nat → Nat := fun i => if i = 3 then 6 else 0

/-- A decodable request datagram with transaction id 0xABCD and
QDCOUNT = 0 (all counts zero). -/
def c7buf : Nat → Nat := fun i => if i = 0 then 0xAB else if i = 1 then 0xCD else 0

/-- The packet `read_packet` decodes from `c7buf`. -/
def c7req : DnsPacket :=
  ⟨⟨0xABCD, false, false, false, 0, false, .Success, false, false, false,
    false, 0, 0, 0, 0⟩, [], [], [], []⟩

/-- An NXDOMAIN response: default packet with rescode `NonexistantDomain`. -/
def nxPacket : DnsPacket :=
  { DnsPacket.default with
    header := { DnsHeader.default with rescode := .NonexistantDomain } }

/-- A buffer holding `6 "google" 3 "COM" 0` at offset 0 and, at offset
12, a name whose first label is `4 "mail"` and whose second label is
supplied by the compression pointer `0xC0 0x07` (offset 17) back to the
`3 "COM"` label of the first name.  The spec's compression scenario. -/
def c8list : List Nat :=
  [6, 103, 111, 111, 103, 108, 101, 3, 67, 79, 77, 0,
   4, 109, 97, 105, 108, 0xC0, 7]

/-- `c8list` as a byte store (zeros past the end). -/
def c8buf : Nat → Nat := fun i => c8list.getD i 0

/-- The bytes of `"mail.com"`. -/
def mailcom : List Nat := [109, 97, 105, 108, 46, 99, 111, 109]

/-- The bytes of `"google.com"`. -/
def gname : List Nat := [103, 111, 111, 103, 108, 101, 46, 99, 111, 109]

/-- The bytes of `"ns1.com"`. -/
def nscom : List Nat := [110, 115, 49, 46, 99, 111, 109]

/-- A concrete valid message exercising every writable record kind, used
to witness the round-trip theorem. -/
def m0 : DnsPacket :=
  ⟨⟨6666, true, false, false, 0, true, .Success, false, false, false, true,
      1, 3, 1, 1⟩,
    [⟨gname, .A⟩],
    [.A gname 0x01020304 3600, .CNAME gname nscom 60,
      .MX gname 10 nscom 120],
    [.NS gname nscom 86400],
    [.AAAA gname [1, 2, 3, 4, 5, 6, 7, 8] 300]⟩

/-- The buffer produced by encoding `m0` into a fresh buffer. -/
def encM0 : BytePacketBuffer :=
  match BytePacketBuffer.new.write_packet m0 with
  | .ok b => b
  | _ => BytePacketBuffer.new

/-! ### Arithmetic helper lemmas -/

theorem lor_shiftLeft_eq (x y k : Nat) (hy : y < 2 ^ k) :
    (x <<< k) ||| y = x * 2 ^ k + y := by
  apply Nat.eq_of_testBit_eq
  intro i
  rw [Nat.testBit_or, Nat.testBit_shiftLeft, Nat.mul_comm x (2 ^ k),
    Nat.testBit_mul_pow_two_add x hy i]
  rcases Nat.lt_or_ge i k with hi | hi
  · simp [hi, Nat.not_le_of_lt hi]
  · have hyb : Nat.testBit y i = false :=
      Nat.testBit_lt_two_pow (Nat.lt_of_lt_of_le hy
        (Nat.pow_le_pow_right (by norm_num) hi))
    simp [hyb, hi, Nat.not_lt_of_le hi]

theorem land_two_pow_sub_one (x k : Nat) : x &&& (2 ^ k - 1) = x % 2 ^ k := by
  apply Nat.eq_of_testBit_eq
  intro i
  rw [Nat.testBit_and, Nat.testBit_mod_two_pow, Nat.testBit_two_pow_sub_one,
    Bool.and_comm]

theorem land_255 (x : Nat) : x &&& 255 = x % 256 := by
  have h := land_two_pow_sub_one x 8
  norm_num at h
  exact h

theorem land_15 (x : Nat) : x &&& 15 = x % 16 := by
  have h := land_two_pow_sub_one x 4
  norm_num at h
  exact h

theorem land_65535 (x : Nat) : x &&& 65535 = x % 65536 := by
  have h := land_two_pow_sub_one x 16
  norm_num at h
  exact h

theorem pow2_8 : (2 : Nat) ^ 8 = 256 := by norm_num

theorem pow2_16 : (2 : Nat) ^ 16 = 65536 := by norm_num

theorem pow2_24 : (2 : Nat) ^ 24 = 16777216 := by norm_num

theorem pow2_32 : (2 : Nat) ^ 32 = 4294967296 := by norm_num

/-! ### Claim theorems and witnesses -/

/-- C2: every `BytePacketBuffer` operation — single-byte read (`get`,
`read`), single-byte write (`write`), range read (`get_range`) and
positional write (`set`) — fails with the bounds error for any position
at or beyond the 512-byte capacity, and (by the model's construction,
which mirrors the source's check-before-access order) never touches the
array: nothing is wrapped or truncated, the operation just fails. -/
theorem c2_bounds_safety (buf : Nat → Nat) (b : BytePacketBuffer)
    (p start len val : Nat) (hp : MAX_BUFFER_SIZE ≤ p)
    (hpos : MAX_BUFFER_SIZE ≤ b.pos)
    (hrange : MAX_BUFFER_SIZE ≤ start + len) :
    BytePacketBuffer.get buf p = .err .bounds ∧
    BytePacketBuffer.read buf p = .err .bounds ∧
    b.write val = .err .bounds ∧
    b.set p val = .err .bounds ∧
    BytePacketBuffer.get_range buf start len = .err .bounds := by
  refine ⟨?_, ?_, ?_, ?_, ?_⟩ <;>
    simp [BytePacketBuffer.get, BytePacketBuffer.read,
      BytePacketBuffer.write, BytePacketBuffer.set,
      BytePacketBuffer.get_range, BytePacketBuffer.is_in_range,
      Nat.not_lt.mpr hp, Nat.not_lt.mpr hpos, Nat.not_lt.mpr hrange]

/-- Witness for C2 at position 512 (the capacity itself) and the range
510..512. -/
theorem c2_bounds_safety_witness :
    BytePacketBuffer.get (fun _ => 0) 512 = .err .bounds ∧
    BytePacketBuffer.read (fun _ => 0) 512 = .err .bounds ∧
    BytePacketBuffer.write ⟨fun _ => 0, 512⟩ 7 = .err .bounds ∧
    BytePacketBuffer.set ⟨fun _ => 0, 512⟩ 512 7 = .err .bounds ∧
    BytePacketBuffer.get_range (fun _ => 0) 510 2 = .err .bounds :=
  c2_bounds_safety (fun _ => 0) ⟨fun _ => 0, 512⟩ 512 510 2 7
    (by decide) (by decide) (by decide)

/-- Once the scan sits on the self-pointing pointer of `cycbuf` with
`jumped` already true, every further iteration returns to the same
state, so the loop burns all fuel. -/
theorem read_qname_go_cycbuf (fuel : Nat) :
    ∀ first out pos,
      BytePacketBuffer.read_qname_go cycbuf fuel 0 true first out pos =
        .diverged := by
  induction fuel with
  | zero => intro first out pos; rfl
  | succ n ih =>
    intro first out pos
    show BytePacketBuffer.read_qname_go cycbuf (n + 1) 0 true first out pos =
      .diverged
    simp only [BytePacketBuffer.read_qname_go, BytePacketBuffer.get,
      BytePacketBuffer.is_in_range, cycbuf]
    norm_num
    exact ih first out pos

/-- C9: `read_qname` has no cycle or hop-count guard: on the buffer
whose name encoding is a compression pointer to its own offset, the
decoding loop exhausts every fuel bound, i.e. the source's unguarded
`loop` never terminates. -/
theorem c9_pointer_cycle_diverges (fuel : Nat) :
    BytePacketBuffer.read_qname cycbuf 0 fuel = .diverged := by
  cases fuel with
  | zero => rfl
  | succ n =>
    show BytePacketBuffer.read_qname_go cycbuf (n + 1) 0 false true [] 0 =
      .diverged
    simp only [BytePacketBuffer.read_qname_go, BytePacketBuffer.get,
      BytePacketBuffer.is_in_range, cycbuf]
    norm_num
    exact read_qname_go_cycbuf n true [] 2

/-- C10: the range read succeeds precisely when `start + len` is
*strictly* below the 512-byte capacity (the check is on the index one
past the last byte read), so a range ending exactly at the buffer's last
byte (`start + len = 512`) fails although bytes `start..511` all lie
inside the buffer; consequently a 63-byte label whose bytes occupy
offsets 449–511 fails to decode with a bounds error. -/
theorem c10_get_range_off_by_one :
    (∀ buf start len, BytePacketBuffer.get_range buf start len =
      if start + len < MAX_BUFFER_SIZE
      then .ok ((List.range len).map fun i => buf (start + i) % 256)
      else .err .bounds) ∧
    BytePacketBuffer.read_qname c10buf 448 100 = .err .bounds := by
  constructor
  · intro buf start len
    by_cases h : start + len < MAX_BUFFER_SIZE <;>
      simp [BytePacketBuffer.get_range, BytePacketBuffer.is_in_range, h]
  · decide

/-- C5: the encoder's length guard is `len > 0x34`, i.e. it rejects any
label longer than 52 bytes, while its own error message (and the spec)
say 63: a single 53-byte label — no label of which exceeds 63 bytes —
is rejected with the label-too-long error even though the buffer has
ample room. -/
theorem c5_label_threshold_bug :
    BytePacketBuffer.write_qname BytePacketBuffer.new name53 =
      .err .labelTooLong ∧
    ∀ l ∈ name53.splitOn 46, l.length ≤ 63 := by
  constructor
  · rfl
  · decide

/-- C3: `read_packet` decodes the section entries through `.unwrap()`,
so a question that fails to decode panics the whole process instead of
returning the error: on `c3buf` (QDCOUNT = 1, question name a pointer to
offset 512) the result is a panic, not an `Err`. -/
theorem c3_read_packet_panics :
    BytePacketBuffer.read_packet c3buf 0 100 = .panicked ∧
    ∀ e, BytePacketBuffer.read_packet c3buf 0 100 ≠ .err e := by
  constructor
  · decide
  · intro e
    cases e <;> decide

/-- C4 counterexample: a header whose result-code nibble is 6 (outside
{0,…,5}) makes `read_header` hit `ResultCode::from_num`'s
`unreachable!()` arm — the decode panics, it does not fail with a decode
error as the claim states. -/
theorem c4_rescode_panics_counterexample :
    BytePacketBuffer.read_header c4buf 0 = .panicked ∧
    ∀ e, BytePacketBuffer.read_header c4buf 0 ≠ .err e := by
  constructor
  · decide
  · intro e
    cases e <;> decide

/-- C4 amended: for every readable header whose 4-bit result-code value
lies outside {0,…,5}, decoding does not silently coerce the value — it
aborts, but by a panic (`unreachable!()`), not by returning a decode
error. -/
theorem c4_rescode_out_of_range_panics (buf : Nat → Nat) (pos : Nat)
    (hpos : pos + 3 < MAX_BUFFER_SIZE)
    (hbad : 5 < buf (pos + 3) % 16) :
    BytePacketBuffer.read_header buf pos = .panicked := by
  have h512 : pos + 3 < 512 := hpos
  have h0 : pos < MAX_BUFFER_SIZE := by simp [MAX_BUFFER_SIZE]; omega
  have h1 : pos + 1 < MAX_BUFFER_SIZE := by simp [MAX_BUFFER_SIZE]; omega
  have h2 : pos + 2 < MAX_BUFFER_SIZE := by simp [MAX_BUFFER_SIZE]; omega
  have h3 : pos + 3 < MAX_BUFFER_SIZE := hpos
  simp only [BytePacketBuffer.read_header, BytePacketBuffer.read_u16,
    BytePacketBuffer.read, BytePacketBuffer.is_in_range, h0, h1, h2, h3,
    if_pos, Res.monad_bind_eq, Res.pure_eq, Res.bind_ok]
  have hflags : ((buf (pos + 2) % 256) <<< 8) ||| (buf (pos + 3) % 256) =
      (buf (pos + 2) % 256) * 256 + buf (pos + 3) % 256 := by
    have := lor_shiftLeft_eq (buf (pos + 2) % 256) (buf (pos + 3) % 256) 8
      (by omega)
    norm_num at this
    exact this
  rw [hflags]
  have hb : ((buf (pos + 2) % 256) * 256 + buf (pos + 3) % 256) &&& 0xFF =
      buf (pos + 3) % 256 := by
    rw [show (0xFF : Nat) = 255 from rfl, land_255]
    omega
  rw [hb]
  have hn : (buf (pos + 3) % 256) &&& 0x0F = buf (pos + 3) % 16 := by
    rw [show (0x0F : Nat) = 15 from rfl, land_15]
    omega
  rw [hn]
  have hlt : buf (pos + 3) % 16 < 16 := Nat.mod_lt _ (by norm_num)
  generalize buf (pos + 3) % 16 = v at hbad hlt
  interval_cases v <;> rfl

/-- Witness for the amended C4 at the concrete header `c4buf` (result
code nibble 6 at offset 3). -/
theorem c4_rescode_out_of_range_panics_witness :
    BytePacketBuffer.read_header c4buf 0 = .panicked :=
  c4_rescode_out_of_range_panics c4buf 0 (by decide) (by decide)

/-- C7: for every decodable request with zero questions, the server
iteration builds the FormatError response carrying the request's
transaction id (`serve_zero_question_packet`), but — because the
encode-and-send block sits inside the `else` branch — it sends nothing
back (`ok none`), contrary to the claim that the response is sent to the
requester. -/
theorem c7_zero_question_sends_nothing (oracle : Nat → DnsPacket)
    (fuel idx : Nat) (reqBuf : Nat → Nat) (request : DnsPacket) (n : Nat)
    (hdec : BytePacketBuffer.read_packet reqBuf 0 fuel = .ok (request, n))
    (hzero : request.questions = []) :
    serve_step oracle fuel idx reqBuf = .ok none ∧
    (serve_zero_question_packet request).header.rescode = .FormError ∧
    (serve_zero_question_packet request).header.id = request.header.id := by
  refine ⟨?_, rfl, rfl⟩
  unfold serve_step
  rw [hdec]
  obtain ⟨hdr, qs, ans, auth, res⟩ := request
  cases qs with
  | nil => rfl
  | cons q t => exact absurd hzero (by simp)

/-- Witness for C7: the concrete decodable request `c7buf`
(id = 0xABCD, QDCOUNT = 0) produces no response bytes, while the packet
the code built and dropped carries FormError and the original id. -/
theorem c7_zero_question_sends_nothing_witness :
    serve_step (fun _ => DnsPacket.default) 16 0 c7buf = .ok none ∧
    (serve_zero_question_packet c7req).header.rescode = .FormError ∧
    (serve_zero_question_packet c7req).header.id = c7req.header.id :=
  c7_zero_question_sends_nothing (fun _ => DnsPacket.default) 16 0 c7buf
    c7req 12 (by decide) rfl

/-- C6: whenever a response with either a non-empty answer section and
result code Success, or with result code NameError (NXDOMAIN), comes
back, `recursive_lookup` returns exactly that response after exactly one
query (`idx + 1`): no further query, no NS/glue fallback. -/
theorem c6_terminal_response_returned (oracle : Nat → DnsPacket)
    (fuel idx : Nat) (qname : List Nat) (qtype : QueryType) (ns : Nat)
    (hfuel : 0 < fuel)
    (hterm : ((oracle idx).answers ≠ [] ∧
        (oracle idx).header.rescode = .Success) ∨
      (oracle idx).header.rescode = .NonexistantDomain) :
    recursive_lookup oracle fuel idx qname qtype ns =
      .ok (oracle idx, idx + 1) := by
  obtain ⟨f, rfl⟩ : ∃ f, fuel = f + 1 := ⟨fuel - 1, by omega⟩
  show recursive_lookup oracle (f + 1) idx qname qtype ns = _
  rcases hterm with hfirst | hnx
  · simp only [recursive_lookup, if_pos hfirst]
  · by_cases hfirst : (oracle idx).answers ≠ [] ∧
      (oracle idx).header.rescode = .Success
    · simp only [recursive_lookup, if_pos hfirst]
    · simp only [recursive_lookup, if_neg hfirst, if_pos hnx]

/-- Witness for C6: an oracle that answers NXDOMAIN to the first query;
the resolver returns that response immediately after one query. -/
theorem c6_terminal_response_returned_witness :
    recursive_lookup (fun _ => nxPacket) 1 0 mailcom .A rootServerIp =
      .ok (nxPacket, 1) :=
  c6_terminal_response_returned (fun _ => nxPacket) 1 0 mailcom .A
    rootServerIp (by decide) (Or.inr (by decide))

/-- Once `jumped` is true, the name-decoding loop never assigns the
externally visible position again: if it terminates successfully, the
returned position is exactly the `pos` it was entered with, no matter
how many further pointers are chased. -/
theorem read_qname_go_jumped_pos (buf : Nat → Nat) :
    ∀ fuel qnamePos first out pos out' pos',
      BytePacketBuffer.read_qname_go buf fuel qnamePos true first out pos =
        .ok (out', pos') →
      pos' = pos := by
  intro fuel
  induction fuel with
  | zero =>
    intro qnamePos first out pos out' pos' h
    exact absurd h (by simp [BytePacketBuffer.read_qname_go])
  | succ n ih =>
    intro qnamePos first out pos out' pos' h
    cases hg : BytePacketBuffer.get buf qnamePos with
    | ok len =>
      simp only [BytePacketBuffer.read_qname_go, hg] at h
      split at h
      · -- pointer byte: the scan jumps, `pos` untouched (`jumped` true)
        cases hg2 : BytePacketBuffer.get buf (qnamePos + 1) with
        | ok secondByte =>
          rw [hg2] at h
          exact ih _ _ _ _ _ _ h
        | err e => rw [hg2] at h; exact absurd h (by simp)
        | panicked => rw [hg2] at h; exact absurd h (by simp)
        | diverged => rw [hg2] at h; exact absurd h (by simp)
      · split at h
        · -- terminator: returns `pos` itself
          simp at h
          exact h.2.symm
        · cases hr : BytePacketBuffer.get_range buf (qnamePos + 1) len with
          | ok strBuffer =>
            rw [hr] at h
            exact ih _ _ _ _ _ _ h
          | err e => rw [hr] at h; exact absurd h (by simp)
          | panicked => rw [hr] at h; exact absurd h (by simp)
          | diverged => rw [hr] at h; exact absurd h (by simp)
    | err e =>
      simp only [BytePacketBuffer.read_qname_go, hg] at h
      exact absurd h (by simp)
    | panicked =>
      simp only [BytePacketBuffer.read_qname_go, hg] at h
      exact absurd h (by simp)
    | diverged =>
      simp only [BytePacketBuffer.read_qname_go, hg] at h
      exact absurd h (by simp)

/-- C8: whenever the name-decoding loop, not yet having jumped, sits on
a compression pointer at scan position `qnamePos` (its length byte has
both 0xC0 bits set) and the whole decode terminates successfully, the
externally visible read position ends exactly 2 bytes past that first
pointer — later pointers never move it again (they fall under the
`jumped = true` invariant). -/
theorem c8_first_pointer_fixes_pos (buf : Nat → Nat) (fuel qnamePos : Nat)
    (first : Bool) (out : List Nat) (pos : Nat) (out' : List Nat)
    (pos' : Nat) (hptr : (buf qnamePos % 256) &&& 0xC0 = 0xC0)
    (hq : qnamePos + 1 < MAX_BUFFER_SIZE)
    (hrun : BytePacketBuffer.read_qname_go buf fuel qnamePos false first out
      pos = .ok (out', pos')) :
    pos' = qnamePos + 2 := by
  cases fuel with
  | zero => exact absurd hrun (by simp [BytePacketBuffer.read_qname_go])
  | succ n =>
    have hq0 : qnamePos < MAX_BUFFER_SIZE := by omega
    have hget : BytePacketBuffer.get buf qnamePos = .ok (buf qnamePos % 256) := by
      simp [BytePacketBuffer.get, BytePacketBuffer.is_in_range, hq0]
    have hget2 : BytePacketBuffer.get buf (qnamePos + 1) =
        .ok (buf (qnamePos + 1) % 256) := by
      simp [BytePacketBuffer.get, BytePacketBuffer.is_in_range, hq]
    simp only [BytePacketBuffer.read_qname_go, hget, hget2, hptr,
      beq_self_eq_true, if_true, Bool.false_eq_true, if_false] at hrun
    exact read_qname_go_jumped_pos buf n _ _ _ _ _ _ hrun

/-- Witness for C8, on the spec's scenario (`c8buf`): the name at offset
12 has its second label supplied by the pointer at offset 17 back into
the name at offset 0; decoding yields the fully expanded, lowercased
`"mail.com"` and the read position lands at 19 = 17 + 2, two bytes past
the pointer. -/
theorem c8_first_pointer_fixes_pos_witness :
    BytePacketBuffer.read_qname c8buf 12 100 = .ok (mailcom, 19) ∧
    (c8buf 17 % 256) &&& 0xC0 = 0xC0 ∧
    (19 : Nat) = 17 + 2 :=
  ⟨by decide, by decide,
    c8_first_pointer_fixes_pos c8buf 100 17 false [109, 97, 105, 108] 12
      mailcom 19 (by decide) (by decide) (by decide)⟩

/-! ### Round-trip machinery (C1)

For each writer of the codec we prove one lemma packaging
(i) how the writer moves the position, (ii) a frame property — bytes
below the start position are untouched — and (iii) a read-back property:
the matching reader, run at the start position over any byte store that
agrees with the writer's output on the written interval, returns exactly
the encoded value and ends at the writer's final position.  The lemmas
compose left to right along the encoding. -/

theorem bind_eq_ok {α β : Type} {x : Res α} {f : α → Res β} {c : β}
    (h : Res.bind x f = .ok c) : ∃ a, x = .ok a ∧ f a = .ok c := by
  cases x with
  | ok a => exact ⟨a, rfl, h⟩
  | err e => exact absurd h (by simp [Res.bind])
  | panicked => exact absurd h (by simp [Res.bind])
  | diverged => exact absurd h (by simp [Res.bind])

namespace BytePacketBuffer

theorem write_inv {b : BytePacketBuffer} {v : Nat} {b' : BytePacketBuffer}
    (h : b.write v = .ok b') :
    b.pos < MAX_BUFFER_SIZE ∧ b'.pos = b.pos + 1 ∧
      b'.buf b.pos = v % 256 ∧ ∀ i, i ≠ b.pos → b'.buf i = b.buf i := by
  unfold write is_in_range at h
  by_cases hp : b.pos < MAX_BUFFER_SIZE
  · simp only [hp, if_true, Res.monad_bind_eq, Res.bind_ok, Res.pure_eq,
      Res.ok.injEq] at h
    subst h
    refine ⟨hp, rfl, by simp, fun i hi => by simp [hi]⟩
  · simp [hp] at h

theorem write_u16_rw {b : BytePacketBuffer} {v : Nat}
    {b' : BytePacketBuffer} (h : b.write_u16 v = .ok b') (hv : v < 65536) :
    b'.pos = b.pos + 2 ∧ b'.pos ≤ MAX_BUFFER_SIZE ∧
      (∀ i, i < b.pos → b'.buf i = b.buf i) ∧
      ∀ d : Nat → Nat, (∀ i, b.pos ≤ i → i < b'.pos → d i = b'.buf i) →
        read_u16 d b.pos = .ok (v, b'.pos) := by
  unfold write_u16 at h
  simp only [Res.monad_bind_eq] at h
  obtain ⟨b1, h1, h2⟩ := bind_eq_ok h
  obtain ⟨hp1, hpos1, hbyte1, hframe1⟩ := write_inv h1
  obtain ⟨hp2, hpos2, hbyte2, hframe2⟩ := write_inv h2
  have hpos : b'.pos = b.pos + 2 := by omega
  have hlow : b'.buf (b.pos + 1) = v % 256 := by
    rw [← hpos1, hbyte2, land_255]
    omega
  have hhigh : b'.buf b.pos = (v >>> 8) % 256 := by
    rw [hframe2 b.pos (by omega), hbyte1]
    omega
  refine ⟨hpos, by omega, ?_, ?_⟩
  · intro i hi
    rw [hframe2 i (by omega), hframe1 i (by omega)]
  · intro d hd
    have hd0 : d b.pos = (v >>> 8) % 256 := by
      rw [hd b.pos (by omega) (by omega), hhigh]
    have hd1 : d (b.pos + 1) = v % 256 := by
      rw [hd (b.pos + 1) (by omega) (by omega), hlow]
    have hb0 : b.pos < MAX_BUFFER_SIZE := hp1
    have hb1 : b.pos + 1 < MAX_BUFFER_SIZE := by
      rw [← hpos1]; exact hp2
    simp only [read_u16, read, is_in_range, hb0, hb1, if_true,
      Res.monad_bind_eq, Res.bind_ok, Res.pure_eq, hd0, hd1]
    have hv8 : v >>> 8 = v / 256 := by
      simp [Nat.shiftRight_eq_div_pow]
    have hor : (((v >>> 8) % 256 % 256) <<< 8) ||| (v % 256 % 256) =
        ((v >>> 8) % 256 % 256) * 256 + (v % 256 % 256) := by
      have := lor_shiftLeft_eq ((v >>> 8) % 256 % 256) (v % 256 % 256) 8
        (by omega)
      norm_num at this ⊢
      exact this
    rw [hor, hpos]
    have : ((v >>> 8) % 256 % 256) * 256 + (v % 256 % 256) = v := by
      rw [hv8]
      omega
    rw [this]

theorem write_u32_rw {b : BytePacketBuffer} {v : Nat}
    {b' : BytePacketBuffer} (h : b.write_u32 v = .ok b')
    (hv : v < 2 ^ 32) :
    b'.pos = b.pos + 4 ∧ b'.pos ≤ MAX_BUFFER_SIZE ∧
      (∀ i, i < b.pos → b'.buf i = b.buf i) ∧
      ∀ d : Nat → Nat, (∀ i, b.pos ≤ i → i < b'.pos → d i = b'.buf i) →
        read_u32 d b.pos = .ok (v, b'.pos) := by
  unfold write_u32 at h
  simp only [Res.monad_bind_eq] at h
  obtain ⟨b1, h1, h2⟩ := bind_eq_ok h
  have hv1 : (v >>> 16) &&& 0xFFFF < 65536 := by
    rw [show (0xFFFF : Nat) = 65535 from rfl, land_65535]
    omega
  have hv2 : v &&& 0xFFFF < 65536 := by
    rw [show (0xFFFF : Nat) = 65535 from rfl, land_65535]
    omega
  obtain ⟨hpos1, hle1, hframe1, hrb1⟩ := write_u16_rw h1 hv1
  obtain ⟨hpos2, hle2, hframe2, hrb2⟩ := write_u16_rw h2 hv2
  refine ⟨by omega, by omega, ?_, ?_⟩
  · intro i hi
    rw [hframe2 i (by omega), hframe1 i hi]
  · intro d hd
    have hrb1' : read_u16 d b.pos = .ok ((v >>> 16) &&& 0xFFFF, b1.pos) := by
      apply hrb1
      intro i hi1 hi2
      rw [hd i hi1 (by omega), hframe2 i (by omega)]
    have hrb2' : read_u16 d b1.pos = .ok (v &&& 0xFFFF, b'.pos) := by
      apply hrb2
      intro i hi1 hi2
      exact hd i (by omega) hi2
    simp only [read_u32, hrb1', hrb2', Res.monad_bind_eq, Res.bind_ok,
      Res.pure_eq, Res.ok.injEq, Prod.mk.injEq]
    refine ⟨?_, trivial⟩
    rw [lor_shiftLeft_eq ((v >>> 16) &&& 0xFFFF) (v &&& 0xFFFF) 16
      (by rw [land_65535]; rw [pow2_16]; omega)]
    rw [land_65535, land_65535, Nat.shiftRight_eq_div_pow, pow2_16]
    omega

/-- Reading a `u16` at any in-range position succeeds (used for the
class and RDLENGTH fields whose decoded value is discarded). -/
theorem read_u16_any (d : Nat → Nat) (p : Nat)
    (hp : p + 1 < MAX_BUFFER_SIZE) :
    read_u16 d p = .ok (((d p % 256) <<< 8) ||| (d (p + 1) % 256), p + 2) := by
  have h0 : p < MAX_BUFFER_SIZE := by
    simp only [MAX_BUFFER_SIZE] at *
    omega
  simp only [read_u16, read, is_in_range, h0, hp, if_true,
    Res.monad_bind_eq, Res.bind_ok, Res.pure_eq]

theorem write_bytes_rw : ∀ (l : List Nat) (b b' : BytePacketBuffer),
    write_bytes l b = .ok b' →
    b'.pos = b.pos + l.length ∧
      (∀ i, i < b.pos → b'.buf i = b.buf i) ∧
      (∀ i, b'.pos ≤ i → b'.buf i = b.buf i) ∧
      ∀ j, j < l.length → b'.buf (b.pos + j) = l.getD j 0 % 256 := by
  intro l
  induction l with
  | nil =>
    intro b b' h
    obtain rfl : b = b' := by
      simpa [write_bytes] using h
    exact ⟨by simp, fun i _ => rfl, fun i _ => rfl, by simp⟩
  | cons v rest ih =>
    intro b b' h
    unfold write_bytes at h
    simp only [Res.monad_bind_eq] at h
    obtain ⟨b1, h1, h2⟩ := bind_eq_ok h
    obtain ⟨hp1, hpos1, hbyte1, hframe1⟩ := write_inv h1
    obtain ⟨hpos2, hlow2, hhigh2, hcontent2⟩ := ih b1 b' h2
    refine ⟨by simp [hpos2, hpos1]; omega, ?_, ?_, ?_⟩
    · intro i hi
      rw [hlow2 i (by omega), hframe1 i (by omega)]
    · intro i hi
      rw [hhigh2 i hi, hframe1 i (by omega)]
    · intro j hj
      cases j with
      | zero =>
        rw [Nat.add_zero, hlow2 b.pos (by omega), hbyte1]
        rfl
      | succ k =>
        have := hcontent2 k (by simp at hj; omega)
        rw [show b.pos + (k + 1) = b1.pos + k by omega, this]
        rfl

theorem set_inv {b : BytePacketBuffer} {pos val : Nat}
    {b' : BytePacketBuffer} (h : b.set pos val = .ok b') :
    pos < MAX_BUFFER_SIZE ∧ b'.pos = b.pos ∧ b'.buf pos = val % 256 ∧
      ∀ i, i ≠ pos → b'.buf i = b.buf i := by
  unfold set is_in_range at h
  by_cases hp : pos < MAX_BUFFER_SIZE
  · simp only [hp, if_true, Res.monad_bind_eq, Res.bind_ok, Res.pure_eq,
      Res.ok.injEq] at h
    subst h
    refine ⟨hp, rfl, by simp, fun i hi => by simp [hi]⟩
  · simp [hp] at h

theorem set_u16_inv {b : BytePacketBuffer} {pos val : Nat}
    {b' : BytePacketBuffer} (h : b.set_u16 pos val = .ok b') :
    pos + 1 < MAX_BUFFER_SIZE ∧ b'.pos = b.pos ∧
      ∀ i, i ≠ pos → i ≠ pos + 1 → b'.buf i = b.buf i := by
  unfold set_u16 at h
  simp only [Res.monad_bind_eq] at h
  obtain ⟨b1, h1, h2⟩ := bind_eq_ok h
  obtain ⟨hp1, hpos1, _, hframe1⟩ := set_inv h1
  obtain ⟨hp2, hpos2, _, hframe2⟩ := set_inv h2
  exact ⟨hp2, by omega, fun i hi1 hi2 => by
    rw [hframe2 i hi2, hframe1 i hi1]⟩

/-- Reading back a 32-bit value from its four stored big-endian octets. -/
theorem read_u32_of_octets (d : Nat → Nat) (p addr : Nat)
    (haddr : addr < 2 ^ 32) (hp : p + 3 < MAX_BUFFER_SIZE)
    (h0 : d p % 256 = (addr >>> 24) % 256)
    (h1 : d (p + 1) % 256 = (addr >>> 16) % 256)
    (h2 : d (p + 2) % 256 = (addr >>> 8) % 256)
    (h3 : d (p + 3) % 256 = addr % 256) :
    read_u32 d p = .ok (addr, p + 4) := by
  have hq0 : p < MAX_BUFFER_SIZE := by
    simp only [MAX_BUFFER_SIZE] at *; omega
  have hq1 : p + 1 < MAX_BUFFER_SIZE := by
    simp only [MAX_BUFFER_SIZE] at *; omega
  have hq2 : p + 2 < MAX_BUFFER_SIZE := by
    simp only [MAX_BUFFER_SIZE] at *; omega
  simp only [read_u32, read_u16, read, is_in_range, hq0, hq1, hq2, hp,
    if_true, Res.monad_bind_eq, Res.bind_ok, Res.pure_eq, h0, h1, h2, h3,
    Res.ok.injEq, Prod.mk.injEq]
  refine ⟨?_, trivial⟩
  rw [lor_shiftLeft_eq ((addr >>> 24) % 256) ((addr >>> 16) % 256) 8
    (by rw [pow2_8]; omega)]
  rw [lor_shiftLeft_eq ((addr >>> 8) % 256) (addr % 256) 8
    (by rw [pow2_8]; omega)]
  rw [lor_shiftLeft_eq (((addr >>> 24) % 256) * 2 ^ 8 + (addr >>> 16) % 256)
    (((addr >>> 8) % 256) * 2 ^ 8 + addr % 256) 16
    (by rw [pow2_8, pow2_16]; omega)]
  rw [Nat.shiftRight_eq_div_pow, Nat.shiftRight_eq_div_pow,
    Nat.shiftRight_eq_div_pow, pow2_8, pow2_16, pow2_24, pow2_32] at *
  omega

end BytePacketBuffer

theorem range_map_getD (l : List Nat) :
    (List.range l.length).map (fun i => l.getD i 0) = l := by
  induction l with
  | nil => simp
  | cons a t ih =>
    rw [List.length_cons, List.range_succ_eq_map]
    simp only [List.map_cons, List.map_map, Function.comp_def,
      List.getD_cons_zero, List.getD_cons_succ]
    rw [ih]

theorem land_192_eq_zero {n : Nat} (h : n ≤ 52) : n &&& 192 = 0 := by
  have hball : ∀ m, m < 53 → m &&& 192 = 0 := by decide
  exact hball n (by omega)

@[simp] theorem dotJoin_nil (first : Bool) : dotJoin first [] = [] := rfl

theorem dotJoin_cons (first : Bool) (l : List Nat) (rest : List (List Nat)) :
    dotJoin first (l :: rest) =
      (if first then l else 46 :: l) ++ dotJoin false rest := rfl

namespace BytePacketBuffer

/-- The core name round-trip: a label list written by `write_qname_go`
is read back by the `read_qname_go` loop (no pointer is ever produced by
the plain encoder, so `jumped` stays false) as the dot-joined label
bytes, ending exactly past the written terminator. -/
theorem write_qname_go_rw : ∀ (ls : List (List Nat)) (b b' : BytePacketBuffer),
    write_qname_go ls b = .ok b' →
    (∀ l ∈ ls, l ≠ [] ∧ ∀ a ∈ l, a < 128 ∧ ¬(65 ≤ a ∧ a ≤ 90)) →
    b.pos < b'.pos ∧ b'.pos ≤ MAX_BUFFER_SIZE ∧
      b.pos + 2 * ls.length + 1 ≤ b'.pos ∧
      (∀ i, i < b.pos → b'.buf i = b.buf i) ∧
      ∀ d : Nat → Nat, (∀ i, b.pos ≤ i → i < b'.pos → d i = b'.buf i) →
        ∀ (first : Bool) (out : List Nat) (pos0 : Nat) (fuel : Nat),
          ls.length < fuel →
          read_qname_go d fuel b.pos false first out pos0 =
            .ok (out ++ dotJoin first ls, b'.pos) := by
  intro ls
  induction ls with
  | nil =>
    intro b b' h _
    replace h : b.write 0 = .ok b' := h
    obtain ⟨hp, hpos, hbyte, hframe⟩ := write_inv h
    refine ⟨by omega, by omega, by simp only [List.length_nil]; omega,
      fun i hi => hframe i (by omega), ?_⟩
    intro d hd first out pos0 fuel hfuel
    obtain ⟨f, rfl⟩ : ∃ f, fuel = f + 1 := ⟨fuel - 1, by omega⟩
    have hd0 : d b.pos = 0 := by
      rw [hd b.pos (by omega) (by omega), hbyte]
    have hget : get d b.pos = .ok 0 := by
      simp [get, is_in_range, hp, hd0]
    simp only [read_qname_go, hget]
    norm_num
    simp [hpos]
  | cons l rest ih =>
    intro b b' h hv
    obtain ⟨hne, hbytes⟩ := hv l (List.mem_cons_self l rest)
    have hvrest : ∀ l' ∈ rest, l' ≠ [] ∧
        ∀ a ∈ l', a < 128 ∧ ¬(65 ≤ a ∧ a ≤ 90) :=
      fun l' hl' => hv l' (List.mem_cons_of_mem l hl')
    replace h : (if l.length > 0x34
        then (.err .labelTooLong : Res BytePacketBuffer)
        else do
          let b ← b.write (l.length % 256)
          let b ← write_bytes l b
          write_qname_go rest b) = .ok b' := h
    have hlen52 : l.length ≤ 0x34 := by
      by_contra hgt
      rw [if_pos (by omega)] at h
      exact absurd h (by simp)
    rw [if_neg (by omega)] at h
    have hlpos : 0 < l.length := List.length_pos.mpr hne
    simp only [Res.monad_bind_eq] at h
    obtain ⟨b1, hw1, h'⟩ := bind_eq_ok h
    obtain ⟨b2, hw2, h''⟩ := bind_eq_ok h'
    obtain ⟨hp1, hpos1, hbyte1, hframe1⟩ := write_inv hw1
    obtain ⟨hpos2, hlow2, hhigh2, hcontent2⟩ := write_bytes_rw l b1 b2 hw2
    obtain ⟨hlt3, hle3, hsize3, hframe3, hrb3⟩ := ih b2 b' h'' hvrest
    have hlenmod : l.length % 256 % 256 = l.length := by omega
    refine ⟨by omega, hle3, by simp only [List.length_cons]; omega, ?_, ?_⟩
    · intro i hi
      rw [hframe3 i (by omega), hlow2 i (by omega), hframe1 i (by omega)]
    · intro d hd first out pos0 fuel hfuel
      obtain ⟨f, rfl⟩ : ∃ f, fuel = f + 1 := ⟨fuel - 1, by omega⟩
      have hdlen : d b.pos = l.length := by
        rw [hd b.pos (by omega) (by omega), hframe3 b.pos (by omega),
          hlow2 b.pos (by omega), hbyte1, hlenmod]
      have hget : get d b.pos = .ok l.length := by
        simp [get, is_in_range, hp1, hdlen]
        omega
      have hcond1 : (l.length &&& 0xC0 == 0xC0) = false := by
        rw [land_192_eq_zero hlen52]
        rfl
      have hcond2 : (l.length == 0) = false := by
        simp only [beq_eq_false_iff_ne, ne_eq]
        omega
      have hgr : get_range d (b.pos + 1) l.length =
          .ok ((List.range l.length).map fun i => d (b.pos + 1 + i) % 256) := by
        have hin : b.pos + 1 + l.length < MAX_BUFFER_SIZE := by omega
        simp [get_range, is_in_range, hin]
      have hvals : ((List.range l.length).map fun i =>
          d (b.pos + 1 + i) % 256).map asciiLower = l := by
        have hpt : ∀ i ∈ List.range l.length,
            asciiLower (d (b.pos + 1 + i) % 256) = l.getD i 0 := by
          intro i hi
          rw [List.mem_range] at hi
          have hmem : l.getD i 0 ∈ l := by
            rw [List.getD_eq_getElem l 0 hi]
            exact List.getElem_mem hi
          obtain ⟨hlt128, hnup⟩ := hbytes (l.getD i 0) hmem
          have hdv : d (b.pos + 1 + i) = l.getD i 0 % 256 := by
            rw [hd (b.pos + 1 + i) (by omega) (by omega),
              hframe3 (b.pos + 1 + i) (by omega),
              show b.pos + 1 + i = b1.pos + i by omega, hcontent2 i hi]
          rw [hdv, show l.getD i 0 % 256 % 256 = l.getD i 0 by omega]
          simp only [asciiLower]
          rw [if_neg hnup]
        rw [List.map_map]
        calc ((List.range l.length).map fun i =>
              asciiLower (d (b.pos + 1 + i) % 256)) =
            (List.range l.length).map fun i => l.getD i 0 :=
              List.map_congr_left hpt
          _ = l := range_map_getD l
      simp only [read_qname_go, hget, hcond1, Bool.false_eq_true, if_false,
        hcond2, hgr, hvals]
      rw [show b.pos + 1 + l.length = b2.pos by omega]
      rw [hrb3 d (fun i hi1 hi2 => hd i (by omega) hi2) false
        ((if first then out else out ++ [46]) ++ l) pos0 f
        (by simp only [List.length_cons] at hfuel; omega)]
      rw [dotJoin_cons]
      cases first <;> simp [List.append_assoc]

end BytePacketBuffer

theorem dotJoin_false_cons (l : List Nat) (rest : List (List Nat)) :
    dotJoin false (l :: rest) = 46 :: dotJoin true (l :: rest) := by
  rw [dotJoin_cons, dotJoin_cons]
  simp

theorem dotJoin_true_intercalate :
    ∀ ls : List (List Nat), dotJoin true ls = [46].intercalate ls := by
  intro ls
  induction ls with
  | nil => simp [List.intercalate]
  | cons l rest ih =>
    cases rest with
    | nil => simp [dotJoin_cons, List.intercalate]
    | cons l2 r2 =>
      rw [dotJoin_cons, dotJoin_false_cons, ih]
      simp [List.intercalate, List.intersperse]

namespace BytePacketBuffer

/-- Read-back for a whole name: what `write_qname` encodes,
`read_qname` decodes back to the very same name (for a valid name), the
cursor ending just past the terminator. -/
theorem write_qname_rw {b : BytePacketBuffer} {qname : List Nat}
    {b' : BytePacketBuffer} (h : b.write_qname qname = .ok b')
    (hv : validName qname) :
    b.pos < b'.pos ∧ b'.pos ≤ MAX_BUFFER_SIZE ∧
      (∀ i, i < b.pos → b'.buf i = b.buf i) ∧
      ∀ d : Nat → Nat, (∀ i, b.pos ≤ i → i < b'.pos → d i = b'.buf i) →
        ∀ fuel, 512 ≤ fuel →
          read_qname d b.pos fuel = .ok (qname, b'.pos) := by
  replace h : write_qname_go (qname.splitOn 46) b = .ok b' := h
  have hv' : ∀ l ∈ qname.splitOn 46, l ≠ [] ∧
      ∀ a ∈ l, a < 128 ∧ ¬(65 ≤ a ∧ a ≤ 90) :=
    fun l hl => ⟨(hv l hl).1, (hv l hl).2.2⟩
  obtain ⟨hlt, hle, hsize, hframe, hrb⟩ := write_qname_go_rw _ b b' h hv'
  refine ⟨hlt, hle, hframe, ?_⟩
  intro d hd fuel hfuel
  have hfl : (qname.splitOn 46).length < fuel := by
    have : MAX_BUFFER_SIZE = 512 := rfl
    omega
  have := hrb d hd true [] b.pos fuel hfl
  rw [read_qname, this, List.nil_append, dotJoin_true_intercalate,
    List.intercalate_splitOn]

end BytePacketBuffer

/-- Unpacking the first flag byte exactly as `read_header` does yields
the fields `write_header` packed into it (opcode confined to 4 bits). -/
theorem headerA_unpack : ∀ op : Nat, op < 16 → ∀ rd tm aa resp : Bool,
    (rd.toNat ||| (tm.toNat <<< 1) ||| (aa.toNat <<< 2) |||
        ((op <<< 3) % 256) ||| (resp.toNat <<< 7)) < 256 ∧
    decide (0 < (rd.toNat ||| (tm.toNat <<< 1) ||| (aa.toNat <<< 2) |||
        ((op <<< 3) % 256) ||| (resp.toNat <<< 7)) &&& (1 <<< 0)) = rd ∧
    decide (0 < (rd.toNat ||| (tm.toNat <<< 1) ||| (aa.toNat <<< 2) |||
        ((op <<< 3) % 256) ||| (resp.toNat <<< 7)) &&& (1 <<< 1)) = tm ∧
    decide (0 < (rd.toNat ||| (tm.toNat <<< 1) ||| (aa.toNat <<< 2) |||
        ((op <<< 3) % 256) ||| (resp.toNat <<< 7)) &&& (1 <<< 2)) = aa ∧
    ((rd.toNat ||| (tm.toNat <<< 1) ||| (aa.toNat <<< 2) |||
        ((op <<< 3) % 256) ||| (resp.toNat <<< 7)) >>> 3) &&& 0x0F = op ∧
    decide (0 < (rd.toNat ||| (tm.toNat <<< 1) ||| (aa.toNat <<< 2) |||
        ((op <<< 3) % 256) ||| (resp.toNat <<< 7)) &&& (1 <<< 7)) = resp := by
  intro op hop rd tm aa resp
  interval_cases op <;> cases rd <;> cases tm <;> cases aa <;> cases resp <;>
    exact ⟨by decide, by decide, by decide, by decide, by decide, by decide⟩

/-- Unpacking the second flag byte exactly as `read_header` does yields
the fields `write_header` packed into it; in particular the result-code
nibble decodes back through `from_num` without panicking. -/
theorem headerB_unpack : ∀ (rc : ResultCode) (cd ad z ra : Bool),
    (rc.toNum ||| (cd.toNat <<< 4) ||| (ad.toNat <<< 5) |||
        (z.toNat <<< 6) ||| (ra.toNat <<< 7)) < 256 ∧
    ResultCode.from_num ((rc.toNum ||| (cd.toNat <<< 4) |||
        (ad.toNat <<< 5) ||| (z.toNat <<< 6) ||| (ra.toNat <<< 7)) &&&
      0x0F) = .ok rc ∧
    decide (0 < (rc.toNum ||| (cd.toNat <<< 4) ||| (ad.toNat <<< 5) |||
        (z.toNat <<< 6) ||| (ra.toNat <<< 7)) &&& (1 <<< 4)) = cd ∧
    decide (0 < (rc.toNum ||| (cd.toNat <<< 4) ||| (ad.toNat <<< 5) |||
        (z.toNat <<< 6) ||| (ra.toNat <<< 7)) &&& (1 <<< 5)) = ad ∧
    decide (0 < (rc.toNum ||| (cd.toNat <<< 4) ||| (ad.toNat <<< 5) |||
        (z.toNat <<< 6) ||| (ra.toNat <<< 7)) &&& (1 <<< 6)) = z ∧
    decide (0 < (rc.toNum ||| (cd.toNat <<< 4) ||| (ad.toNat <<< 5) |||
        (z.toNat <<< 6) ||| (ra.toNat <<< 7)) &&& (1 <<< 7)) = ra := by
  intro rc cd ad z ra
  cases rc <;> cases cd <;> cases ad <;> cases z <;> cases ra <;>
    exact ⟨by decide, by decide, by decide, by decide, by decide, by decide⟩

namespace BytePacketBuffer

/-- Header round trip: what `write_header` encodes, `read_header`
decodes back field-for-field (for a header whose fields fit their wire
widths). -/
theorem write_header_rw {b : BytePacketBuffer} {hd : DnsHeader}
    {b' : BytePacketBuffer} (h : b.write_header hd = .ok b')
    (hv : hd.valid) :
    b'.pos = b.pos + 12 ∧ b'.pos ≤ MAX_BUFFER_SIZE ∧
      (∀ i, i < b.pos → b'.buf i = b.buf i) ∧
      ∀ d : Nat → Nat, (∀ i, b.pos ≤ i → i < b'.pos → d i = b'.buf i) →
        read_header d b.pos = .ok (hd, b'.pos) := by
  obtain ⟨idv, rd, tm, aa, op, resp, rc, cd, ad, z, ra, qs, an, au, re⟩ := hd
  obtain ⟨hid, hop, hqs, han, hau, hre⟩ := hv
  unfold write_header at h
  simp only [Res.monad_bind_eq] at h
  obtain ⟨b1, h1, h⟩ := bind_eq_ok h
  obtain ⟨b2, h2, h⟩ := bind_eq_ok h
  obtain ⟨b3, h3, h⟩ := bind_eq_ok h
  obtain ⟨b4, h4, h⟩ := bind_eq_ok h
  obtain ⟨b5, h5, h⟩ := bind_eq_ok h
  obtain ⟨b6, h6, h7⟩ := bind_eq_ok h
  obtain ⟨hA, hA0, hA1, hA2, hAop, hA7⟩ := headerA_unpack op hop rd tm aa resp
  obtain ⟨hB, hBrc, hB4, hB5, hB6, hB7⟩ := headerB_unpack rc cd ad z ra
  set aB := rd.toNat ||| (tm.toNat <<< 1) ||| (aa.toNat <<< 2) |||
    ((op <<< 3) % 256) ||| (resp.toNat <<< 7) with haB
  set bB := rc.toNum ||| (cd.toNat <<< 4) ||| (ad.toNat <<< 5) |||
    (z.toNat <<< 6) ||| (ra.toNat <<< 7) with hbB
  obtain ⟨hpos1, hle1, hfr1, hrb1⟩ := write_u16_rw h1 hid
  obtain ⟨hp2, hpos2, hbyte2, hfr2⟩ := write_inv h2
  obtain ⟨hp3, hpos3, hbyte3, hfr3⟩ := write_inv h3
  obtain ⟨hpos4, hle4, hfr4, hrb4⟩ := write_u16_rw h4 hqs
  obtain ⟨hpos5, hle5, hfr5, hrb5⟩ := write_u16_rw h5 han
  obtain ⟨hpos6, hle6, hfr6, hrb6⟩ := write_u16_rw h6 hau
  obtain ⟨hpos7, hle7, hfr7, hrb7⟩ := write_u16_rw h7 hre
  refine ⟨by omega, by omega, ?_, ?_⟩
  · intro i hi
    rw [hfr7 i (by omega), hfr6 i (by omega), hfr5 i (by omega),
      hfr4 i (by omega), hfr3 i (by omega), hfr2 i (by omega),
      hfr1 i (by omega)]
  · intro d hagree
    have hfrto1 : ∀ i, i < b1.pos → b'.buf i = b1.buf i := by
      intro i hi
      rw [hfr7 i (by omega), hfr6 i (by omega), hfr5 i (by omega),
        hfr4 i (by omega), hfr3 i (by omega), hfr2 i (by omega)]
    have hfrto2 : ∀ i, i < b2.pos → b'.buf i = b2.buf i := by
      intro i hi
      rw [hfr7 i (by omega), hfr6 i (by omega), hfr5 i (by omega),
        hfr4 i (by omega), hfr3 i (by omega)]
    have hfrto3 : ∀ i, i < b3.pos → b'.buf i = b3.buf i := by
      intro i hi
      rw [hfr7 i (by omega), hfr6 i (by omega), hfr5 i (by omega),
        hfr4 i (by omega)]
    have hfrto4 : ∀ i, i < b4.pos → b'.buf i = b4.buf i := by
      intro i hi
      rw [hfr7 i (by omega), hfr6 i (by omega), hfr5 i (by omega)]
    have hfrto5 : ∀ i, i < b5.pos → b'.buf i = b5.buf i := by
      intro i hi
      rw [hfr7 i (by omega), hfr6 i (by omega)]
    have hfrto6 : ∀ i, i < b6.pos → b'.buf i = b6.buf i := by
      intro i hi
      rw [hfr7 i (by omega)]
    have hrbid : read_u16 d b.pos = .ok (idv, b1.pos) := by
      apply hrb1
      intro i hi1 hi2
      rw [hagree i hi1 (by omega), hfrto1 i hi2]
    have hdA : d b1.pos % 256 = aB := by
      rw [hagree b1.pos (by omega) (by omega), hfrto2 b1.pos (by omega),
        hbyte2]
      omega
    have hdB : d (b1.pos + 1) % 256 = bB := by
      rw [hagree (b1.pos + 1) (by omega) (by omega),
        hfrto3 (b1.pos + 1) (by omega),
        show b1.pos + 1 = b2.pos by omega, hbyte3]
      omega
    have hflags : read_u16 d b1.pos = .ok ((aB <<< 8) ||| bB, b3.pos) := by
      rw [read_u16_any d b1.pos (by omega), hdA, hdB,
        show b1.pos + 2 = b3.pos by omega]
    have hor : (aB <<< 8) ||| bB = aB * 2 ^ 8 + bB :=
      lor_shiftLeft_eq aB bB 8 (by rw [pow2_8]; omega)
    have ha : (((aB <<< 8) ||| bB) >>> 8) % 256 = aB := by
      rw [hor, Nat.shiftRight_eq_div_pow, pow2_8]
      omega
    have hb : ((aB <<< 8) ||| bB) &&& 0xFF = bB := by
      rw [hor, land_255, pow2_8]
      omega
    have hrbqs : read_u16 d b3.pos = .ok (qs, b4.pos) := by
      apply hrb4
      intro i hi1 hi2
      rw [hagree i (by omega) (by omega), hfrto4 i hi2]
    have hrban : read_u16 d b4.pos = .ok (an, b5.pos) := by
      apply hrb5
      intro i hi1 hi2
      rw [hagree i (by omega) (by omega), hfrto5 i hi2]
    have hrbau : read_u16 d b5.pos = .ok (au, b6.pos) := by
      apply hrb6
      intro i hi1 hi2
      rw [hagree i (by omega) (by omega), hfrto6 i hi2]
    have hrbre : read_u16 d b6.pos = .ok (re, b'.pos) := by
      apply hrb7
      intro i hi1 hi2
      exact hagree i (by omega) hi2
    simp only [read_header, hrbid, hflags, hrbqs, hrban, hrbau, hrbre,
      Res.monad_bind_eq, Res.bind_ok, Res.pure_eq, ha, hb, hA0, hA1, hA2,
      hAop, hA7, hBrc, hB4, hB5, hB6, hB7]

/-- Question round trip: what `write_question` encodes, `read_question`
decodes back (for a valid question; the class field is written as 1 and
read-and-discarded). -/
theorem write_question_rw {b : BytePacketBuffer} {q : DnsQuestion}
    {b' : BytePacketBuffer} (h : b.write_question q = .ok b')
    (hv : q.valid) :
    b.pos < b'.pos ∧ b'.pos ≤ MAX_BUFFER_SIZE ∧
      (∀ i, i < b.pos → b'.buf i = b.buf i) ∧
      ∀ d : Nat → Nat, (∀ i, b.pos ≤ i → i < b'.pos → d i = b'.buf i) →
        ∀ fuel, 512 ≤ fuel →
          read_question d b.pos fuel = .ok (q, b'.pos) := by
  obtain ⟨name, qtype⟩ := q
  obtain ⟨hvn, hqt, hqtlt⟩ := hv
  unfold write_question at h
  simp only [Res.monad_bind_eq] at h
  obtain ⟨b1, h1, h⟩ := bind_eq_ok h
  obtain ⟨b2, h2, h3⟩ := bind_eq_ok h
  obtain ⟨hlt1, hle1, hfr1, hrb1⟩ := write_qname_rw h1 hvn
  obtain ⟨hpos2, hle2, hfr2, hrb2⟩ := write_u16_rw h2 hqtlt
  obtain ⟨hpos3, hle3, hfr3, hrb3⟩ := write_u16_rw h3 (by norm_num)
  refine ⟨by omega, by omega, ?_, ?_⟩
  · intro i hi
    rw [hfr3 i (by omega), hfr2 i (by omega), hfr1 i hi]
  · intro d hagree fuel hfuel
    have hrname : read_qname d b.pos fuel = .ok (name, b1.pos) := by
      apply hrb1 d ?_ fuel hfuel
      intro i hi1 hi2
      rw [hagree i hi1 (by omega), hfr3 i (by omega), hfr2 i (by omega)]
    have hrqt : read_u16 d b1.pos = .ok (qtype.to_num, b2.pos) := by
      apply hrb2
      intro i hi1 hi2
      rw [hagree i (by omega) (by omega), hfr3 i (by omega)]
    have hrcl : read_u16 d b2.pos = .ok (1, b'.pos) := by
      apply hrb3
      intro i hi1 hi2
      exact hagree i (by omega) hi2
    simp only [read_question, hrname, hrqt, hrcl, Res.monad_bind_eq,
      Res.bind_ok, Res.pure_eq, hqt]

/-- The common head of every record encoding — owner name, type, class,
TTL — reads back to the written values. -/
theorem record_head_rw {b b1 b2 b3 b4 : BytePacketBuffer}
    {domain : List Nat} {tnum ttl : Nat} (h1 : b.write_qname domain = .ok b1)
    (h2 : b1.write_u16 tnum = .ok b2) (h3 : b2.write_u16 1 = .ok b3)
    (h4 : b3.write_u32 ttl = .ok b4) (hvd : validName domain)
    (htn : tnum < 65536) (httl : ttl < 2 ^ 32) :
    b.pos < b4.pos ∧ b4.pos ≤ MAX_BUFFER_SIZE ∧
      (∀ i, i < b.pos → b4.buf i = b.buf i) ∧
      ∀ d : Nat → Nat, (∀ i, b.pos ≤ i → i < b4.pos → d i = b4.buf i) →
        ∀ fuel, 512 ≤ fuel →
          read_qname d b.pos fuel = .ok (domain, b1.pos) ∧
          read_u16 d b1.pos = .ok (tnum, b2.pos) ∧
          read_u16 d b2.pos = .ok (1, b3.pos) ∧
          read_u32 d b3.pos = .ok (ttl, b4.pos) := by
  obtain ⟨hlt1, hle1, hfr1, hrb1⟩ := write_qname_rw h1 hvd
  obtain ⟨hpos2, hle2, hfr2, hrb2⟩ := write_u16_rw h2 htn
  obtain ⟨hpos3, hle3, hfr3, hrb3⟩ := write_u16_rw h3 (by norm_num)
  obtain ⟨hpos4, hle4, hfr4, hrb4⟩ := write_u32_rw h4 httl
  refine ⟨by omega, by omega, ?_, ?_⟩
  · intro i hi
    rw [hfr4 i (by omega), hfr3 i (by omega), hfr2 i (by omega), hfr1 i hi]
  · intro d hagree fuel hfuel
    refine ⟨?_, ?_, ?_, ?_⟩
    · apply hrb1 d ?_ fuel hfuel
      intro i hi1 hi2
      rw [hagree i hi1 (by omega), hfr4 i (by omega), hfr3 i (by omega),
        hfr2 i (by omega)]
    · apply hrb2
      intro i hi1 hi2
      rw [hagree i (by omega) (by omega), hfr4 i (by omega),
        hfr3 i (by omega)]
    · apply hrb3
      intro i hi1 hi2
      rw [hagree i (by omega) (by omega), hfr4 i (by omega)]
    · apply hrb4
      intro i hi1 hi2
      exact hagree i (by omega) hi2

/-- Record round trip: every writable (non-`Unknown`) valid record reads
back field-for-field at the position it was written. -/
theorem write_record_rw {b : BytePacketBuffer} {r : DnsRecord} {sz : Nat}
    {b' : BytePacketBuffer} (h : b.write_record r = .ok (sz, b'))
    (hv : r.valid) :
    b.pos < b'.pos ∧ b'.pos ≤ MAX_BUFFER_SIZE ∧
      (∀ i, i < b.pos → b'.buf i = b.buf i) ∧
      ∀ d : Nat → Nat, (∀ i, b.pos ≤ i → i < b'.pos → d i = b'.buf i) →
        ∀ fuel, 512 ≤ fuel →
          read_record d b.pos fuel = .ok (r, b'.pos) := by
  cases r with
  | Unknown domain qtype data_len ttl => exact absurd hv id
  | A domain addr ttl =>
    obtain ⟨hvd, haddr, httl⟩ := hv
    replace h : (do
        let b1 ← b.write_qname domain
        let b2 ← b1.write_u16 QueryType.A.to_num
        let b3 ← b2.write_u16 1
        let b4 ← b3.write_u32 ttl
        let b5 ← b4.write_u16 4
        let b6 ← b5.write ((addr >>> 24) % 256)
        let b7 ← b6.write ((addr >>> 16) % 256)
        let b8 ← b7.write ((addr >>> 8) % 256)
        let b9 ← b8.write (addr % 256)
        pure (b9.pos - b.pos, b9)) = .ok (sz, b') := h
    simp only [Res.monad_bind_eq] at h
    obtain ⟨b1, h1, h⟩ := bind_eq_ok h
    obtain ⟨b2, h2, h⟩ := bind_eq_ok h
    obtain ⟨b3, h3, h⟩ := bind_eq_ok h
    obtain ⟨b4, h4, h⟩ := bind_eq_ok h
    obtain ⟨b5, h5, h⟩ := bind_eq_ok h
    obtain ⟨b6, h6, h⟩ := bind_eq_ok h
    obtain ⟨b7, h7, h⟩ := bind_eq_ok h
    obtain ⟨b8, h8, h⟩ := bind_eq_ok h
    obtain ⟨b9, h9, hfin⟩ := bind_eq_ok h
    simp only [Res.pure_eq, Res.ok.injEq, Prod.mk.injEq] at hfin
    obtain ⟨-, rfl⟩ := hfin
    obtain ⟨hh1, hh2, hh3, hh4⟩ :=
      record_head_rw h1 h2 h3 h4 hvd (by norm_num [QueryType.to_num]) httl
    obtain ⟨hpos5, hle5, hfr5, hrb5⟩ := write_u16_rw h5 (by norm_num)
    obtain ⟨hp6, hpos6, hbyte6, hfr6⟩ := write_inv h6
    obtain ⟨hp7, hpos7, hbyte7, hfr7⟩ := write_inv h7
    obtain ⟨hp8, hpos8, hbyte8, hfr8⟩ := write_inv h8
    obtain ⟨hp9, hpos9, hbyte9, hfr9⟩ := write_inv h9
    refine ⟨by omega, by omega, ?_, ?_⟩
    · intro i hi
      rw [hfr9 i (by omega), hfr8 i (by omega), hfr7 i (by omega),
        hfr6 i (by omega), hfr5 i (by omega), hh3 i hi]
    · intro d hagree fuel hfuel
      obtain ⟨hrname, hrtype, hrclass, hrttl⟩ := hh4 d (by
        intro i hi1 hi2
        rw [hagree i hi1 (by omega), hfr9 i (by omega), hfr8 i (by omega),
          hfr7 i (by omega), hfr6 i (by omega), hfr5 i (by omega)]) fuel hfuel
      have hrdlen : read_u16 d b4.pos = .ok (4, b5.pos) := by
        apply hrb5
        intro i hi1 hi2
        rw [hagree i (by omega) (by omega), hfr9 i (by omega),
          hfr8 i (by omega), hfr7 i (by omega), hfr6 i (by omega)]
      have hraddr : read_u32 d b5.pos = .ok (addr, b9.pos) := by
        have hoct : read_u32 d b5.pos = .ok (addr, b5.pos + 4) := by
          apply read_u32_of_octets d b5.pos addr haddr (by omega)
          · rw [hagree b5.pos (by omega) (by omega), hfr9 b5.pos (by omega),
              hfr8 b5.pos (by omega), hfr7 b5.pos (by omega), hbyte6]
            omega
          · rw [hagree (b5.pos + 1) (by omega) (by omega),
              hfr9 (b5.pos + 1) (by omega), hfr8 (b5.pos + 1) (by omega),
              show b5.pos + 1 = b6.pos by omega, hbyte7]
            omega
          · rw [hagree (b5.pos + 2) (by omega) (by omega),
              hfr9 (b5.pos + 2) (by omega),
              show b5.pos + 2 = b7.pos by omega, hbyte8]
            omega
          · rw [hagree (b5.pos + 3) (by omega) (by omega),
              show b5.pos + 3 = b8.pos by omega, hbyte9]
            omega
        rw [hoct, show b5.pos + 4 = b9.pos by omega]
      simp only [read_record, hrname, hrtype, hrclass, hrttl, hrdlen,
        hraddr, Res.monad_bind_eq, Res.bind_ok, Res.pure_eq,
        QueryType.to_num, QueryType.from_num]
  | NS domain host ttl =>
    obtain ⟨hvd, hvh, httl⟩ := hv
    simp only [write_record, Res.monad_bind_eq] at h
    obtain ⟨b1, h1, h⟩ := bind_eq_ok h
    obtain ⟨b2, h2, h⟩ := bind_eq_ok h
    obtain ⟨b3, h3, h⟩ := bind_eq_ok h
    obtain ⟨b4, h4, h⟩ := bind_eq_ok h
    obtain ⟨b5, h5, h⟩ := bind_eq_ok h
    obtain ⟨b6, h6, h⟩ := bind_eq_ok h
    obtain ⟨b7, h7, hfin⟩ := bind_eq_ok h
    simp only [Res.pure_eq, Res.ok.injEq, Prod.mk.injEq] at hfin
    obtain ⟨-, rfl⟩ := hfin
    obtain ⟨hh1, hh2, hh3, hh4⟩ :=
      record_head_rw h1 h2 h3 h4 hvd (by norm_num [QueryType.to_num]) httl
    obtain ⟨hpos5, hle5, hfr5, hrb5⟩ := write_u16_rw h5 (by norm_num)
    obtain ⟨hlt6, hle6, hfr6, hrb6⟩ := write_qname_rw h6 hvh
    obtain ⟨hset1, hset2, hsetfr⟩ := set_u16_inv h7
    refine ⟨by omega, by omega, ?_, ?_⟩
    · intro i hi
      rw [hsetfr i (by omega) (by omega), hfr6 i (by omega),
        hfr5 i (by omega), hh3 i hi]
    · intro d hagree fuel hfuel
      obtain ⟨hrname, hrtype, hrclass, hrttl⟩ := hh4 d (by
        intro i hi1 hi2
        rw [hagree i hi1 (by omega), hsetfr i (by omega) (by omega),
          hfr6 i (by omega), hfr5 i (by omega)]) fuel hfuel
      have hrdlen : read_u16 d b4.pos =
          .ok (((d b4.pos % 256) <<< 8) ||| (d (b4.pos + 1) % 256),
            b5.pos) := by
        rw [read_u16_any d b4.pos (by omega),
          show b4.pos + 2 = b5.pos by omega]
      have hrhost : read_qname d b5.pos fuel = .ok (host, b7.pos) := by
        have := hrb6 d (by
          intro i hi1 hi2
          rw [hagree i (by omega) (by omega),
            hsetfr i (by omega) (by omega)]) fuel hfuel
        rw [this, hset2]
      simp only [read_record, hrname, hrtype, hrclass, hrttl, hrdlen,
        hrhost, Res.monad_bind_eq, Res.bind_ok, Res.pure_eq,
        QueryType.to_num, QueryType.from_num]
  | CNAME domain host ttl =>
    obtain ⟨hvd, hvh, httl⟩ := hv
    simp only [write_record, Res.monad_bind_eq] at h
    obtain ⟨b1, h1, h⟩ := bind_eq_ok h
    obtain ⟨b2, h2, h⟩ := bind_eq_ok h
    obtain ⟨b3, h3, h⟩ := bind_eq_ok h
    obtain ⟨b4, h4, h⟩ := bind_eq_ok h
    obtain ⟨b5, h5, h⟩ := bind_eq_ok h
    obtain ⟨b6, h6, h⟩ := bind_eq_ok h
    obtain ⟨b7, h7, hfin⟩ := bind_eq_ok h
    simp only [Res.pure_eq, Res.ok.injEq, Prod.mk.injEq] at hfin
    obtain ⟨-, rfl⟩ := hfin
    obtain ⟨hh1, hh2, hh3, hh4⟩ :=
      record_head_rw h1 h2 h3 h4 hvd (by norm_num [QueryType.to_num]) httl
    obtain ⟨hpos5, hle5, hfr5, hrb5⟩ := write_u16_rw h5 (by norm_num)
    obtain ⟨hlt6, hle6, hfr6, hrb6⟩ := write_qname_rw h6 hvh
    obtain ⟨hset1, hset2, hsetfr⟩ := set_u16_inv h7
    refine ⟨by omega, by omega, ?_, ?_⟩
    · intro i hi
      rw [hsetfr i (by omega) (by omega), hfr6 i (by omega),
        hfr5 i (by omega), hh3 i hi]
    · intro d hagree fuel hfuel
      obtain ⟨hrname, hrtype, hrclass, hrttl⟩ := hh4 d (by
        intro i hi1 hi2
        rw [hagree i hi1 (by omega), hsetfr i (by omega) (by omega),
          hfr6 i (by omega), hfr5 i (by omega)]) fuel hfuel
      have hrdlen : read_u16 d b4.pos =
          .ok (((d b4.pos % 256) <<< 8) ||| (d (b4.pos + 1) % 256),
            b5.pos) := by
        rw [read_u16_any d b4.pos (by omega),
          show b4.pos + 2 = b5.pos by omega]
      have hrhost : read_qname d b5.pos fuel = .ok (host, b7.pos) := by
        have := hrb6 d (by
          intro i hi1 hi2
          rw [hagree i (by omega) (by omega),
            hsetfr i (by omega) (by omega)]) fuel hfuel
        rw [this, hset2]
      simp only [read_record, hrname, hrtype, hrclass, hrttl, hrdlen,
        hrhost, Res.monad_bind_eq, Res.bind_ok, Res.pure_eq,
        QueryType.to_num, QueryType.from_num]
  | MX domain priority host ttl =>
    obtain ⟨hvd, hpr, hvh, httl⟩ := hv
    simp only [write_record, Res.monad_bind_eq] at h
    obtain ⟨b1, h1, h⟩ := bind_eq_ok h
    obtain ⟨b2, h2, h⟩ := bind_eq_ok h
    obtain ⟨b3, h3, h⟩ := bind_eq_ok h
    obtain ⟨b4, h4, h⟩ := bind_eq_ok h
    obtain ⟨b5, h5, h⟩ := bind_eq_ok h
    obtain ⟨b5p, h5p, h⟩ := bind_eq_ok h
    obtain ⟨b6, h6, h⟩ := bind_eq_ok h
    obtain ⟨b7, h7, hfin⟩ := bind_eq_ok h
    simp only [Res.pure_eq, Res.ok.injEq, Prod.mk.injEq] at hfin
    obtain ⟨-, rfl⟩ := hfin
    obtain ⟨hh1, hh2, hh3, hh4⟩ :=
      record_head_rw h1 h2 h3 h4 hvd (by norm_num [QueryType.to_num]) httl
    obtain ⟨hpos5, hle5, hfr5, hrb5⟩ := write_u16_rw h5 (by norm_num)
    obtain ⟨hpos5p, hle5p, hfr5p, hrb5p⟩ := write_u16_rw h5p hpr
    obtain ⟨hlt6, hle6, hfr6, hrb6⟩ := write_qname_rw h6 hvh
    obtain ⟨hset1, hset2, hsetfr⟩ := set_u16_inv h7
    refine ⟨by omega, by omega, ?_, ?_⟩
    · intro i hi
      rw [hsetfr i (by omega) (by omega), hfr6 i (by omega),
        hfr5p i (by omega), hfr5 i (by omega), hh3 i hi]
    · intro d hagree fuel hfuel
      obtain ⟨hrname, hrtype, hrclass, hrttl⟩ := hh4 d (by
        intro i hi1 hi2
        rw [hagree i hi1 (by omega), hsetfr i (by omega) (by omega),
          hfr6 i (by omega), hfr5p i (by omega), hfr5 i (by omega)]) fuel
          hfuel
      have hrdlen : read_u16 d b4.pos =
          .ok (((d b4.pos % 256) <<< 8) ||| (d (b4.pos + 1) % 256),
            b5.pos) := by
        rw [read_u16_any d b4.pos (by omega),
          show b4.pos + 2 = b5.pos by omega]
      have hrpr : read_u16 d b5.pos = .ok (priority, b5p.pos) := by
        apply hrb5p
        intro i hi1 hi2
        rw [hagree i (by omega) (by omega),
          hsetfr i (by omega) (by omega), hfr6 i (by omega)]
      have hrhost : read_qname d b5p.pos fuel = .ok (host, b7.pos) := by
        have := hrb6 d (by
          intro i hi1 hi2
          rw [hagree i (by omega) (by omega),
            hsetfr i (by omega) (by omega)]) fuel hfuel
        rw [this, hset2]
      simp only [read_record, hrname, hrtype, hrclass, hrttl, hrdlen,
        hrpr, hrhost, Res.monad_bind_eq, Res.bind_ok, Res.pure_eq,
        QueryType.to_num, QueryType.from_num]
  | AAAA domain addr ttl =>
    obtain ⟨hvd, hlen8, hsegs, httl⟩ := hv
    rcases addr with - | ⟨s0, - | ⟨s1, - | ⟨s2, - | ⟨s3, - | ⟨s4,
      - | ⟨s5, - | ⟨s6, - | ⟨s7, rest⟩⟩⟩⟩⟩⟩⟩⟩ <;>
      first
        | (exfalso
           simp only [List.length_cons, List.length_nil] at hlen8
           omega)
        | skip
    have hrl : rest.length = 0 := by
      simp only [List.length_cons] at hlen8
      omega
    obtain rfl : rest = [] := List.eq_nil_of_length_eq_zero hrl
    simp only [write_record, write_segments, Res.monad_bind_eq,
      Res.bind_ok] at h
    obtain ⟨b1, h1, h⟩ := bind_eq_ok h
    obtain ⟨b2, h2, h⟩ := bind_eq_ok h
    obtain ⟨b3, h3, h⟩ := bind_eq_ok h
    obtain ⟨b4, h4, h⟩ := bind_eq_ok h
    obtain ⟨b5, h5, h⟩ := bind_eq_ok h
    obtain ⟨b6, hseg, hfin⟩ := bind_eq_ok h
    simp only [Res.pure_eq, Res.ok.injEq, Prod.mk.injEq] at hfin
    obtain ⟨-, rfl⟩ := hfin
    obtain ⟨c1, hs0, hseg⟩ := bind_eq_ok hseg
    obtain ⟨c2, hs1, hseg⟩ := bind_eq_ok hseg
    obtain ⟨c3, hs2, hseg⟩ := bind_eq_ok hseg
    obtain ⟨c4, hs3, hseg⟩ := bind_eq_ok hseg
    obtain ⟨c5, hs4, hseg⟩ := bind_eq_ok hseg
    obtain ⟨c6, hs5, hseg⟩ := bind_eq_ok hseg
    obtain ⟨c7, hs6, hseg⟩ := bind_eq_ok hseg
    obtain ⟨c8, hs7, hlast⟩ := bind_eq_ok hseg
    obtain rfl : c8 = b6 := by simpa using hlast
    obtain ⟨hh1, hh2, hh3, hh4⟩ :=
      record_head_rw h1 h2 h3 h4 hvd (by norm_num [QueryType.to_num]) httl
    obtain ⟨hpos5, hle5, hfr5, hrb5⟩ := write_u16_rw h5 (by norm_num)
    obtain ⟨hpc1, hlc1, hfc1, hrc1⟩ := write_u16_rw hs0 (hsegs s0 (by simp))
    obtain ⟨hpc2, hlc2, hfc2, hrc2⟩ := write_u16_rw hs1 (hsegs s1 (by simp))
    obtain ⟨hpc3, hlc3, hfc3, hrc3⟩ := write_u16_rw hs2 (hsegs s2 (by simp))
    obtain ⟨hpc4, hlc4, hfc4, hrc4⟩ := write_u16_rw hs3 (hsegs s3 (by simp))
    obtain ⟨hpc5, hlc5, hfc5, hrc5⟩ := write_u16_rw hs4 (hsegs s4 (by simp))
    obtain ⟨hpc6, hlc6, hfc6, hrc6⟩ := write_u16_rw hs5 (hsegs s5 (by simp))
    obtain ⟨hpc7, hlc7, hfc7, hrc7⟩ := write_u16_rw hs6 (hsegs s6 (by simp))
    obtain ⟨hpc8, hlc8, hfc8, hrc8⟩ := write_u16_rw hs7 (hsegs s7 (by simp))
    refine ⟨by omega, by omega, ?_, ?_⟩
    · intro i hi
      rw [hfc8 i (by omega), hfc7 i (by omega), hfc6 i (by omega),
        hfc5 i (by omega), hfc4 i (by omega), hfc3 i (by omega),
        hfc2 i (by omega), hfc1 i (by omega), hfr5 i (by omega), hh3 i hi]
    · intro d hagree fuel hfuel
      obtain ⟨hrname, hrtype, hrclass, hrttl⟩ := hh4 d (by
        intro i hi1 hi2
        rw [hagree i hi1 (by omega), hfc8 i (by omega), hfc7 i (by omega),
          hfc6 i (by omega), hfc5 i (by omega), hfc4 i (by omega),
          hfc3 i (by omega), hfc2 i (by omega), hfc1 i (by omega),
          hfr5 i (by omega)]) fuel hfuel
      have hrdlen : read_u16 d b4.pos = .ok (16, b5.pos) := by
        apply hrb5
        intro i hi1 hi2
        rw [hagree i (by omega) (by omega), hfc8 i (by omega),
          hfc7 i (by omega), hfc6 i (by omega), hfc5 i (by omega),
          hfc4 i (by omega), hfc3 i (by omega), hfc2 i (by omega),
          hfc1 i (by omega)]
      have hrs0 : read_u16 d b5.pos = .ok (s0, c1.pos) := by
        apply hrc1
        intro i hi1 hi2
        rw [hagree i (by omega) (by omega), hfc8 i (by omega),
          hfc7 i (by omega), hfc6 i (by omega), hfc5 i (by omega),
          hfc4 i (by omega), hfc3 i (by omega), hfc2 i (by omega)]
      have hrs1 : read_u16 d c1.pos = .ok (s1, c2.pos) := by
        apply hrc2
        intro i hi1 hi2
        rw [hagree i (by omega) (by omega), hfc8 i (by omega),
          hfc7 i (by omega), hfc6 i (by omega), hfc5 i (by omega),
          hfc4 i (by omega), hfc3 i (by omega)]
      have hrs2 : read_u16 d c2.pos = .ok (s2, c3.pos) := by
        apply hrc3
        intro i hi1 hi2
        rw [hagree i (by omega) (by omega), hfc8 i (by omega),
          hfc7 i (by omega), hfc6 i (by omega), hfc5 i (by omega),
          hfc4 i (by omega)]
      have hrs3 : read_u16 d c3.pos = .ok (s3, c4.pos) := by
        apply hrc4
        intro i hi1 hi2
        rw [hagree i (by omega) (by omega), hfc8 i (by omega),
          hfc7 i (by omega), hfc6 i (by omega), hfc5 i (by omega)]
      have hrs4 : read_u16 d c4.pos = .ok (s4, c5.pos) := by
        apply hrc5
        intro i hi1 hi2
        rw [hagree i (by omega) (by omega), hfc8 i (by omega),
          hfc7 i (by omega), hfc6 i (by omega)]
      have hrs5 : read_u16 d c5.pos = .ok (s5, c6.pos) := by
        apply hrc6
        intro i hi1 hi2
        rw [hagree i (by omega) (by omega), hfc8 i (by omega),
          hfc7 i (by omega)]
      have hrs6 : read_u16 d c6.pos = .ok (s6, c7.pos) := by
        apply hrc7
        intro i hi1 hi2
        rw [hagree i (by omega) (by omega), hfc8 i (by omega)]
      have hrs7 : read_u16 d c7.pos = .ok (s7, c8.pos) := by
        apply hrc8
        intro i hi1 hi2
        exact hagree i (by omega) hi2
      simp only [read_record, hrname, hrtype, hrclass, hrttl, hrdlen,
        hrs0, hrs1, hrs2, hrs3, hrs4, hrs5, hrs6, hrs7, Res.monad_bind_eq,
        Res.bind_ok, Res.pure_eq, QueryType.to_num, QueryType.from_num]

/-- Question-section round trip: the question list written by
`write_packet`'s loop is read back, element by element, by
`read_packet`'s unwrap-collect loop. -/
theorem write_questions_rw : ∀ (qs : List DnsQuestion)
    (b b' : BytePacketBuffer), write_questions qs b = .ok b' →
    (∀ q ∈ qs, q.valid) →
    b.pos ≤ b'.pos ∧ (∀ i, i < b.pos → b'.buf i = b.buf i) ∧
      ∀ d : Nat → Nat, (∀ i, b.pos ≤ i → i < b'.pos → d i = b'.buf i) →
        ∀ fuel, 512 ≤ fuel →
          read_many_unwrap (fun p => read_question d p fuel) qs.length
            b.pos = .ok (qs, b'.pos) := by
  intro qs
  induction qs with
  | nil =>
    intro b b' h _
    obtain rfl : b = b' := by simpa [write_questions] using h
    exact ⟨Nat.le_refl _, fun i _ => rfl, fun d _ fuel _ => rfl⟩
  | cons q rest ih =>
    intro b b' h hv
    replace h : (do
        let b1 ← b.write_question q
        write_questions rest b1) = .ok b' := h
    simp only [Res.monad_bind_eq] at h
    obtain ⟨b1, h1, h2⟩ := bind_eq_ok h
    obtain ⟨hlt1, hle1, hfr1, hrb1⟩ :=
      write_question_rw h1 (hv q (List.mem_cons_self q rest))
    obtain ⟨hle2, hfr2, hrb2⟩ :=
      ih b1 b' h2 (fun q' hq' => hv q' (List.mem_cons_of_mem q hq'))
    refine ⟨by omega, ?_, ?_⟩
    · intro i hi
      rw [hfr2 i (by omega), hfr1 i hi]
    · intro d hagree fuel hfuel
      have hq : read_question d b.pos fuel = .ok (q, b1.pos) := by
        apply hrb1 d ?_ fuel hfuel
        intro i hi1 hi2
        rw [hagree i hi1 (by omega), hfr2 i hi2]
      have hr : read_many_unwrap (fun p => read_question d p fuel)
          rest.length b1.pos = .ok (rest, b'.pos) := by
        apply hrb2 d ?_ fuel hfuel
        intro i hi1 hi2
        exact hagree i (by omega) hi2
      simp only [List.length_cons, read_many_unwrap, hq, hr]

/-- Record-section round trip: a record list written by `write_packet`'s
loops is read back element by element. -/
theorem write_records_rw : ∀ (rs : List DnsRecord)
    (b b' : BytePacketBuffer), write_records rs b = .ok b' →
    (∀ r ∈ rs, r.valid) →
    b.pos ≤ b'.pos ∧ (∀ i, i < b.pos → b'.buf i = b.buf i) ∧
      ∀ d : Nat → Nat, (∀ i, b.pos ≤ i → i < b'.pos → d i = b'.buf i) →
        ∀ fuel, 512 ≤ fuel →
          read_many_unwrap (fun p => read_record d p fuel) rs.length
            b.pos = .ok (rs, b'.pos) := by
  intro rs
  induction rs with
  | nil =>
    intro b b' h _
    obtain rfl : b = b' := by simpa [write_records] using h
    exact ⟨Nat.le_refl _, fun i _ => rfl, fun d _ fuel _ => rfl⟩
  | cons r rest ih =>
    intro b b' h hv
    replace h : (do
        let x ← b.write_record r
        write_records rest x.2) = .ok b' := h
    simp only [Res.monad_bind_eq] at h
    obtain ⟨x, h1, h2⟩ := bind_eq_ok h
    obtain ⟨sz, b1⟩ := x
    obtain ⟨hlt1, hle1, hfr1, hrb1⟩ :=
      write_record_rw h1 (hv r (List.mem_cons_self r rest))
    obtain ⟨hle2, hfr2, hrb2⟩ :=
      ih b1 b' h2 (fun r' hr' => hv r' (List.mem_cons_of_mem r hr'))
    refine ⟨by omega, ?_, ?_⟩
    · intro i hi
      rw [hfr2 i (by omega), hfr1 i hi]
    · intro d hagree fuel hfuel
      have hq : read_record d b.pos fuel = .ok (r, b1.pos) := by
        apply hrb1 d ?_ fuel hfuel
        intro i hi1 hi2
        rw [hagree i hi1 (by omega), hfr2 i hi2]
      have hr : read_many_unwrap (fun p => read_record d p fuel)
          rest.length b1.pos = .ok (rest, b'.pos) := by
        apply hrb2 d ?_ fuel hfuel
        intro i hi1 hi2
        exact hagree i (by omega) hi2
      simp only [List.length_cons, read_many_unwrap, hq, hr]

/-- Packet round trip: the full message written by `write_packet` is
read back by `read_packet`, sections in order, for any byte store that
agrees with the encoder's output on the written interval. -/
theorem write_packet_rw {b : BytePacketBuffer} {p : DnsPacket}
    {b' : BytePacketBuffer} (h : b.write_packet p = .ok b')
    (hv : p.valid) :
    b.pos ≤ b'.pos ∧ (∀ i, i < b.pos → b'.buf i = b.buf i) ∧
      ∀ d : Nat → Nat, (∀ i, b.pos ≤ i → i < b'.pos → d i = b'.buf i) →
        ∀ fuel, 512 ≤ fuel →
          read_packet d b.pos fuel = .ok (p, b'.pos) := by
  obtain ⟨hd, qs, ans, auth, res⟩ := p
  obtain ⟨hvh, hcq, hca, hcau, hcre, hvq, hva, hvau, hvre⟩ := hv
  dsimp only at hvh hcq hca hcau hcre hvq hva hvau hvre
  unfold write_packet at h
  simp only [Res.monad_bind_eq] at h
  obtain ⟨b1, h1, h⟩ := bind_eq_ok h
  obtain ⟨b2, h2, h⟩ := bind_eq_ok h
  obtain ⟨b3, h3, h⟩ := bind_eq_ok h
  obtain ⟨b4, h4, h5⟩ := bind_eq_ok h
  obtain ⟨hpos1, hle1, hfr1, hrb1⟩ := write_header_rw h1 hvh
  obtain ⟨hle2, hfr2, hrb2⟩ := write_questions_rw qs b1 b2 h2 hvq
  obtain ⟨hle3, hfr3, hrb3⟩ := write_records_rw ans b2 b3 h3 hva
  obtain ⟨hle4, hfr4, hrb4⟩ := write_records_rw auth b3 b4 h4 hvau
  obtain ⟨hle5, hfr5, hrb5⟩ := write_records_rw res b4 b' h5 hvre
  refine ⟨by omega, ?_, ?_⟩
  · intro i hi
    rw [hfr5 i (by omega), hfr4 i (by omega), hfr3 i (by omega),
      hfr2 i (by omega), hfr1 i hi]
  · intro d hagree fuel hfuel
    have hrhd : read_header d b.pos = .ok (hd, b1.pos) := by
      apply hrb1
      intro i hi1 hi2
      rw [hagree i hi1 (by omega), hfr5 i (by omega), hfr4 i (by omega),
        hfr3 i (by omega), hfr2 i (by omega)]
    have hrqs : read_many_unwrap (fun pp => read_question d pp fuel)
        qs.length b1.pos = .ok (qs, b2.pos) := by
      apply hrb2 d ?_ fuel hfuel
      intro i hi1 hi2
      rw [hagree i (by omega) (by omega), hfr5 i (by omega),
        hfr4 i (by omega), hfr3 i (by omega)]
    have hrans : read_many_unwrap (fun pp => read_record d pp fuel)
        ans.length b2.pos = .ok (ans, b3.pos) := by
      apply hrb3 d ?_ fuel hfuel
      intro i hi1 hi2
      rw [hagree i (by omega) (by omega), hfr5 i (by omega),
        hfr4 i (by omega)]
    have hrauth : read_many_unwrap (fun pp => read_record d pp fuel)
        auth.length b3.pos = .ok (auth, b4.pos) := by
      apply hrb4 d ?_ fuel hfuel
      intro i hi1 hi2
      rw [hagree i (by omega) (by omega), hfr5 i (by omega)]
    have hrres : read_many_unwrap (fun pp => read_record d pp fuel)
        res.length b4.pos = .ok (res, b'.pos) := by
      apply hrb5 d ?_ fuel hfuel
      intro i hi1 hi2
      exact hagree i (by omega) hi2
    simp only [read_packet, hrhd, Res.monad_bind_eq, Res.bind_ok,
      Res.pure_eq, hcq, hca, hcau, hcre, hrqs, hrans, hrauth, hrres]

end BytePacketBuffer

/-- C1: round trip.  For every valid in-memory `DnsPacket` with no
`Unknown`-kind records and header counts matching its section lengths
(`DnsPacket.valid`), if encoding it into a fresh buffer succeeds, then
decoding the produced bytes from position 0 yields the very same message
field-for-field, with the question, answer, authority and additional
sections in their original order, the cursor ending exactly at the
encoded length.  (`fuel` only bounds the name-decoding loops; any value
≥ 512 is enough for a 512-byte buffer.) -/
theorem c1_roundtrip (m : DnsPacket) (b' : BytePacketBuffer)
    (hv : m.valid) (henc : BytePacketBuffer.new.write_packet m = .ok b')
    (fuel : Nat) (hfuel : 512 ≤ fuel) :
    BytePacketBuffer.read_packet b'.buf 0 fuel = .ok (m, b'.pos) := by
  obtain ⟨-, -, hrb⟩ := BytePacketBuffer.write_packet_rw henc hv
  exact hrb b'.buf (fun i _ _ => rfl) fuel hfuel

/-- Witness for C1: the concrete message `m0` (one A question; A, CNAME
and MX answers; an NS authority; an AAAA additional) encodes to `encM0`
and decodes back to exactly `m0`. -/
theorem c1_roundtrip_witness :
    m0.valid ∧ BytePacketBuffer.new.write_packet m0 = .ok encM0 ∧
    BytePacketBuffer.read_packet encM0.buf 0 512 = .ok (m0, encM0.pos) :=
  ⟨by decide, by rfl, c1_roundtrip m0 encM0 (by decide) (by rfl) 512
    (by norm_num)⟩

end DiyDns
